import Mathlib

/-!
Verification of tx2uml: decoding of call frames, logs and call depths.

A shallow embedding of `src/lib/transaction.js` (the static methods of
`TransactionManager` and the module-level helpers they call) together with
theorems about it.

Conventions of the embedding.

* A JavaScript exception is a `String` (the message of the thrown `Error`).
  Functions of the source that can raise return `Except String _`; functions
  that mutate a frame before they raise return the mutated frame together with
  `Option String` (the raised message, if any), because the mutation stays
  visible to the caller.
* The `@ethersproject/abi` library is not part of the repository.  What the
  source calls on it (`parseTransaction`, `parseLog`, `getSighash`,
  `defaultAbiCoder.decode`) is carried as a function field of the `Interface`
  or `AbiCoder` value handed to the code.
* The `contracts` object is an association list in iteration order; its keys
  are the addresses.
-/

namespace Tx2uml

/-! ## ABI type descriptors, raw values and parameter nodes -/

/-- The fields of an ethers `ParamType` that the source reads. `components` is
`none` when the JavaScript property is `null` or `undefined`. -/
inductive ParamType where
  | mk (name : String) (type : String) (baseType : String)
      (components : Option (List ParamType))

namespace ParamType

/-- Field `name`. -/
def name : ParamType → String
  | mk n _ _ _ => n

/-- Field `type`. -/
def type : ParamType → String
  | mk _ t _ _ => t

/-- Field `baseType`. -/
def baseType : ParamType → String
  | mk _ _ b _ => b

/-- Field `components`. -/
def components : ParamType → Option (List ParamType)
  | mk _ _ _ c => c

end ParamType

/-- A JavaScript value handed to the decoder as `args`.

* `undefined` stands for `undefined` and `null`;
* `num` for numbers, `BigNumber`s and booleans (no indexed properties);
* `str` for strings;
* `obj` for a `ParamType` object used as a value (no indexed properties);
* `seq` for arrays (ethers `Result`s). -/
inductive Value where
  | undefined
  | num (n : Int)
  | str (s : String)
  | obj (p : ParamType)
  | seq (xs : List Value)

/-- One decoded parameter: the object literal
`{ name, type, value, components }` built by the source. `components` is
`none` when the JavaScript property is `undefined`. -/
inductive ParamNode where
  | mk (name : String) (type : String) (value : Value)
      (components : Option (List ParamNode))

namespace ParamNode

/-- Field `name`. -/
def name : ParamNode → String
  | mk n _ _ _ => n

/-- Field `type`. -/
def type : ParamNode → String
  | mk _ t _ _ => t

/-- Field `value`. -/
def value : ParamNode → Value
  | mk _ _ v _ => v

/-- Field `components`. -/
def components : ParamNode → Option (List ParamNode)
  | mk _ _ _ c => c

end ParamNode

/-- The JavaScript expression `args[j]`: a `TypeError` on `undefined`/`null`,
the `j`-th element of an array (`undefined` past its end), the `j`-th
character of a string, and `undefined` on every other value. -/
def Value.index : Value → Nat → Except String Value
  | .undefined, _ => .error "TypeError: Cannot read properties of undefined"
  | .num _, _ => .ok .undefined
  | .str s, j =>
    match s.data[j]? with
    | some c => .ok (.str (String.singleton c))
    | none => .ok .undefined
  | .obj _, _ => .ok .undefined
  | .seq xs, j => .ok (xs.getD j .undefined)

/-- The JavaScript expression `s.slice(0, -2)`: `s` without its last two
characters (the empty string when `s` has fewer than two). -/
def sliceDropLast2 (s : String) : String :=
  ⟨s.data.take (s.data.length - 2)⟩

/-- The JavaScript expression `s.slice(-2)`: the last two characters of `s`
(all of `s` when it has fewer than two). -/
def sliceLast2 (s : String) : String :=
  ⟨s.data.drop (s.data.length - 2)⟩

/-- `childBaseType` of the source (line 277). -/
def childBaseType (childType : String) : String :=
  if sliceLast2 childType = "[]" then "array" else childType

/-- Result of `addValuesToComponents`: raised, `undefined` (`none`) or an
array of nodes. -/
abbrev Components := Except String (Option (List ParamNode))

/-! ### `addValuesToComponents`

The source function (lines 254-287) recurses into `paramType.components` in
its first branch and into the elements of `args` in its second branch, where
the descriptor passed down, `{ ...paramType, type, baseType }`, keeps the
components of `paramType` and changes only the two strings.  The embedding
therefore has two structurally recursive layers: `arrayLevels` is the second
branch (it descends through `args` carrying the current `type`/`baseType`
strings and hands over to `tuple` as soon as `baseType` is not `"array"`),
and `addValuesToComponents`/`tupleComponents` is the first branch.  The
lemmas `addValuesToComponents_of_not_array` and
`addValuesToComponents_of_array` below restate the two branches in the shape
of the source. -/

mutual
/-- The source function for a descriptor with the given `type` and `baseType`
whose first branch is `tuple`. -/
def arrayLevels (tuple : Value → Components) : String → String → Value → Components
  | type, baseType, .seq rows =>
    if baseType ≠ "array" then tuple (.seq rows)
    else (arrayRows tuple (sliceDropLast2 type) rows 0).map some
  | _, baseType, .undefined =>
    if baseType ≠ "array" then tuple .undefined
    else .error "TypeError: Cannot read properties of undefined"
  | _, baseType, args =>
    if baseType ≠ "array" then tuple args
    else .error "TypeError: args.map is not a function"
/-- The callback of `args.map((row, r) => ...)` (lines 272-285) applied to the
rows from index `r` on. -/
def arrayRows (tuple : Value → Components) (childType : String) :
    List Value → Nat → Except String (List ParamNode)
  | [], _ => .ok []
  | row :: rest, r =>
    match arrayLevels tuple childType (childBaseType childType) row with
    | .error e => .error e
    | .ok components =>
      match arrayRows tuple childType rest (r + 1) with
      | .error e => .error e
      | .ok nodes => .ok (ParamNode.mk (toString r) childType row components :: nodes)
end

mutual
/-- The function `addValuesToComponents(paramType, args)` of the source. -/
def addValuesToComponents : ParamType → Value → Components
  | .mk _ type baseType components, args =>
    arrayLevels (fun v => tupleComponents components v) type baseType args
/-- The first branch of the source (lines 256-268): `undefined` without
components, else `paramType.components.map(...)`. -/
def tupleComponents : Option (List ParamType) → Value → Components
  | none, _ => .ok none
  | some cs, args => (tupleFields cs args 0).map some
/-- The callback of `paramType.components.map((component, j) => ...)` applied
to the components from index `j` on. -/
def tupleFields : List ParamType → Value → Nat → Except String (List ParamNode)
  | [], _, _ => .ok []
  | component :: rest, args, j =>
    match args.index j with
    | .error e => .error e
    | .ok v =>
      match addValuesToComponents component v with
      | .error e => .error e
      | .ok components =>
        match tupleFields rest args (j + 1) with
        | .error e => .error e
        | .ok nodes => .ok (ParamNode.mk component.name component.type v components :: nodes)
end

/-- The descriptor `{ ...paramType, type: childType, baseType: childBaseType }`
passed to the recursive call of the array branch (line 278). -/
def ParamType.child (paramType : ParamType) : ParamType :=
  .mk paramType.name (sliceDropLast2 paramType.type)
    (childBaseType (sliceDropLast2 paramType.type)) paramType.components

/-! ## Call frames, contracts and the ethers interface -/

/-- The enumeration `MessageType` (lines 12-20). -/
inductive MessageType where
  | Unknown
  | Call
  | Create
  | Selfdestruct
  | DelegateCall
  | StaticCall
  deriving DecidableEq, Repr

/-- The fields of an ethers `Fragment` (function, event or constructor) that
the source reads. An absent property is `none`. -/
structure Fragment where
  type : String
  name : String
  inputs : Option (List ParamType)
  outputs : Option (List ParamType)

/-- The ethers `TransactionDescription` returned by `parseTransaction`. -/
structure TransactionDescription where
  name : String
  functionFragment : Fragment
  args : List Value

/-- The ethers `LogDescription` returned by `parseLog`. -/
structure LogDescription where
  name : String
  eventFragment : Fragment
  args : List Value

/-- A transaction log as received from the node. -/
structure Log where
  address : String
  topics : List String
  data : String

/-- The ethers `Interface` of a contract: its declared fragments, its
constructor fragment (`deploy`) and the library functions the source calls on
it. -/
structure Interface where
  fragments : List Fragment
  deploy : Option Fragment
  getSighash : Fragment → String
  parseTransaction : String → Except String TransactionDescription
  parseLog : Log → Except String LogDescription

/-- The ethers `Contract` object stored in `contract.ethersContract`. -/
structure EthersContract where
  address : String
  interface : Interface

/-- The `defaultAbiCoder` of the library: `decode(types, data)`. -/
structure AbiCoder where
  decode : Option (List ParamType) → String → Except String (List Value)

/-- The record returned by `parseEvent`. -/
structure Event where
  name : String
  params : List ParamNode

/-- One entry of the `contracts` object. -/
structure Contract where
  address : String
  ethersContract : Option EthersContract
  constructorInputs : Option String
  minDepth : Option Int
  events : List Event

/-- The `contracts` object: the entries in iteration order, keyed by address
(addresses are not integer-like keys, so `Object.values` lists them in
insertion order). -/
abbrev Contracts := List (String × Contract)

/-- The expression `contracts[address]`. -/
def Contracts.get? : Contracts → String → Option Contract
  | [], _ => none
  | (key, contract) :: rest, address =>
    if key = address then some contract else Contracts.get? rest address

/-- The assignment `contracts[address].minDepth = depth`. -/
def Contracts.setMinDepth (contracts : Contracts) (address : String) (depth : Int) :
    Contracts :=
  contracts.map fun entry =>
    if entry.1 = address then (entry.1, { entry.2 with minDepth := some depth }) else entry

/-- The statement `contracts[address].events.push(event)`. -/
def Contracts.pushEvent (contracts : Contracts) (address : String) (event : Event) :
    Contracts :=
  contracts.map fun entry =>
    if entry.1 = address then (entry.1, { entry.2 with events := entry.2.events ++ [event] })
    else entry

/-- A call frame (`Trace` of the source). `from_` and `to_` are the properties
`from` and `to`. Absent properties are `none`; `inputParams` and
`outputParams` are the arrays the source pushes to. -/
structure Trace where
  id : Nat
  type : MessageType
  from_ : String
  to_ : String
  inputs : Option String
  outputs : Option String
  funcSelector : Option String
  funcName : Option String
  inputParams : List ParamNode
  outputParams : List ParamNode
  proxy : Option Bool
  parsedConstructorParams : Option Bool
  depth : Int
  error : Option String

/-! ## Depth annotation -/

/-- The `for` loop of `parseTraceDepths` (lines 149-154). -/
def parseTraceDepths.loop : List Trace → Contracts → Except String Contracts
  | [], contracts => .ok contracts
  | trace :: rest, contracts =>
    match contracts.get? trace.to_ with
    | none => .error "TypeError: Cannot read properties of undefined (reading 'minDepth')"
    | some contract =>
      match contract.minDepth with
      | none => parseTraceDepths.loop rest (contracts.setMinDepth trace.to_ trace.depth)
      | some minDepth =>
        if trace.depth < minDepth then
          parseTraceDepths.loop rest (contracts.setMinDepth trace.to_ trace.depth)
        else parseTraceDepths.loop rest contracts

/-- The method `parseTraceDepths(traces, contracts)` (lines 146-155). The
result is the mapping after the pass, or the raised `TypeError`. -/
def parseTraceDepths (traces : List (List Trace)) (contracts : Contracts) :
    Except String Contracts :=
  match traces.flatten with
  | [] => .error "TypeError: Cannot read properties of undefined (reading 'from')"
  | first :: rest =>
    match contracts.get? first.from_ with
    | none => .error "TypeError: Cannot set properties of undefined (setting 'minDepth')"
    | some _ => parseTraceDepths.loop (first :: rest) (contracts.setMinDepth first.from_ 0)

/-- The recorded minimum depth of an address: `none` when the address is not a
key, `some none` when the contract carries no `minDepth`. -/
def Contracts.minDepthOf (contracts : Contracts) (address : String) : Option (Option Int) :=
  (contracts.get? address).map fun c => c.minDepth

/-- One update of the loop of `parseTraceDepths` on the recorded value. -/
def minStep (recorded : Option Int) (depth : Int) : Option Int :=
  match recorded with
  | none => some depth
  | some m => if depth < m then some depth else some m

/-! ## Selector index -/

/-- The object `functionSelector2Contract`: selectors in insertion order, each
with its array of ethers contracts. Only own properties are modelled:
selectors are hexadecimal strings and never name an inherited property. -/
abbrev SelectorIndex := List (String × List EthersContract)

/-- The expression `functionSelector2Contract[sighash]`. -/
def SelectorIndex.get? : SelectorIndex → String → Option (List EthersContract)
  | [], _ => none
  | (key, candidates) :: rest, sighash =>
    if key = sighash then some candidates else SelectorIndex.get? rest sighash

/-- Lines 169-172: create the array for `sighash` if it is missing, then push
the contract. -/
def SelectorIndex.push (index : SelectorIndex) (sighash : String) (contract : EthersContract) :
    SelectorIndex :=
  match index.get? sighash with
  | none => index ++ [(sighash, [contract])]
  | some _ =>
    index.map fun entry =>
      if entry.1 = sighash then (entry.1, entry.2 ++ [contract]) else entry

/-- The function `mapFunctionSelectors2Contracts(contracts)` (lines 159-177). -/
def mapFunctionSelectors2Contracts (contracts : Contracts) : SelectorIndex :=
  (contracts.map Prod.snd).foldl
    (fun index contract =>
      match contract.ethersContract with
      | none => index
      | some ethersContract =>
        (ethersContract.interface.fragments.filter fun fragment => fragment.type = "function").foldl
          (fun index fragment =>
            index.push (ethersContract.interface.getSighash fragment) ethersContract)
          index)
    []

/-! ## Decoding of call frames -/

/-- The `forEach` callback shared by `addInputParamsToTrace` (lines 180-189),
`addOutputParamsToTrace` (lines 198-206) and `addConstructorParamsToTrace`
(lines 225-233): for the values from index `i` on, decode the value against
`fragments[i]` and push the node. Returns the array pushed to and the error
raised, if any; the nodes pushed before the error stay. -/
def pushParams (fragments : Option (List ParamType)) :
    List Value → Nat → List ParamNode → List ParamNode × Option String
  | [], _, params => (params, none)
  | value :: rest, i, params =>
    match fragments with
    | none => (params, some "TypeError: Cannot read properties of undefined")
    | some fs =>
      match fs[i]? with
      | none => (params, some "TypeError: Cannot read properties of undefined (reading 'baseType')")
      | some fragment =>
        match addValuesToComponents fragment value with
        | .error e => (params, some e)
        | .ok components =>
          pushParams fragments rest (i + 1)
            (params ++ [ParamNode.mk fragment.name fragment.type value components])

/-- The function `addInputParamsToTrace(trace, txDescription)`. -/
def addInputParamsToTrace (trace : Trace) (txDescription : TransactionDescription) :
    Trace × Option String :=
  let r := pushParams txDescription.functionFragment.inputs txDescription.args 0 trace.inputParams
  ({ trace with inputParams := r.1 }, r.2)

/-- JavaScript truthiness of an optional string: defined and not empty. -/
def truthy : Option String → Bool
  | none => false
  | some s => s ≠ ""

/-- The function `addOutputParamsToTrace(trace, txDescription)`. -/
def addOutputParamsToTrace (coder : AbiCoder) (trace : Trace)
    (txDescription : TransactionDescription) : Trace × Option String :=
  if !truthy trace.outputs || trace.outputs = some "0x" || truthy trace.error then (trace, none)
  else
    let functionFragments := txDescription.functionFragment.outputs
    match coder.decode functionFragments (trace.outputs.getD "") with
    | .error e => (trace, some e)
    | .ok outputParams =>
      let r := pushParams functionFragments outputParams 0 trace.outputParams
      ({ trace with outputParams := r.1 }, r.2)

/-- The expression `contracts[address]?.ethersContract?.interface?.deploy`
(line 212): the constructor fragment of the contract at `address`, if any. -/
def constructorOf (contracts : Contracts) (address : String) : Option Fragment :=
  ((contracts.get? address).bind fun c => c.ethersContract).bind fun e => e.interface.deploy

/-- The function `addConstructorParamsToTrace(trace, contracts)`. -/
def addConstructorParamsToTrace (coder : AbiCoder) (trace : Trace) (contracts : Contracts) :
    Trace × Option String :=
  match (constructorOf contracts trace.to_).bind fun constructor => constructor.inputs with
  | none => (trace, none)
  | some inputs =>
    let trace := { trace with parsedConstructorParams := some true }
    match (contracts.get? trace.to_).bind fun c => c.constructorInputs with
    | none => (trace, none)
    | some constructorInputs =>
      if constructorInputs.length = 0 then (trace, none)
      else
        match coder.decode (some inputs) ("0x" ++ constructorInputs) with
        | .error e => (trace, some e)
        | .ok constructorParams =>
          let r := pushParams (some inputs) constructorParams 0 trace.inputParams
          ({ trace with inputParams := r.1 }, r.2)

/-- The body of the `try` block of `parseTraceParams` (lines 111-116). -/
def parseTraceParams.tryBlock (coder : AbiCoder) (contract : EthersContract) (trace : Trace) :
    Trace × Option String :=
  match contract.interface.parseTransaction (trace.inputs.getD "") with
  | .error e => (trace, some e)
  | .ok txDescription =>
    let r := addInputParamsToTrace { trace with funcName := some txDescription.name } txDescription
    match r.2 with
    | some e => (r.1, some e)
    | none => addOutputParamsToTrace coder r.1 txDescription

/-- The JavaScript test `message.match(pattern)` for a pattern without special
characters: `pattern` occurs in `message`. -/
def jsMatch (message pattern : String) : Bool :=
  decide (pattern.data <:+: message.data)

/-- The message of the warning built in the `catch` block (line 120). -/
def parseTraceParams.warning (trace : Trace) (err : String) : String :=
  "Failed to parse selector " ++ trace.funcSelector.getD "undefined" ++
    " in trace with id " ++ toString trace.id ++ " from " ++ trace.from_ ++
    " to " ++ trace.to_ ++ ": " ++ err

/-- Lines 103-109: the candidate whose address is `trace.to_`, else the first
candidate with the frame flagged as a proxy call. -/
def parseTraceParams.select (first : EthersContract) (others : List EthersContract)
    (trace : Trace) : EthersContract × Trace :=
  match (first :: others).find? fun contract => contract.address = trace.to_ with
  | some contract => (contract, trace)
  | none => (first, { trace with proxy := some true })

/-- The `try`/`catch` statement (lines 110-123): the frame after it and the
warnings written to the console. Nothing is raised. -/
def parseTraceParams.tryCatch (coder : AbiCoder) (contract : EthersContract) (trace : Trace) :
    Trace × List String :=
  let r := parseTraceParams.tryBlock coder contract trace
  match r.2 with
  | none => (r.1, [])
  | some err =>
    if jsMatch err "no matching function" then (r.1, [])
    else (r.1, [parseTraceParams.warning r.1 err])

/-- How one iteration of the loop of `parseTraceParams` ends. -/
inductive Completion where
  | normal
  | returned
  | raised (message : String)

/-- The effect of one iteration: the frame after it, the warnings written and
how the iteration ended. -/
structure Iteration where
  trace : Trace
  warnings : List String
  completion : Completion

/-- The test `trace.inputs?.length >= 10` (line 94). -/
def hasCallData (trace : Trace) : Bool :=
  match trace.inputs with
  | none => false
  | some inputs => 10 ≤ inputs.length

/-- The expression `functionSelector2Contract[trace.funcSelector]` with an
absent entry read as the empty array: the candidates of the frame's selector
in index order. -/
def candidatesOf (index : SelectorIndex) (trace : Trace) : List EthersContract :=
  (index.get? (trace.funcSelector.getD "undefined")).getD []

/-- The body of the `for` loop of `parseTraceParams` (lines 94-125). -/
def parseTraceParams.body (coder : AbiCoder) (contracts : Contracts) (index : SelectorIndex)
    (trace : Trace) : Iteration :=
  if hasCallData trace then
    if trace.type = MessageType.Create then
      let r := addConstructorParamsToTrace coder { trace with funcName := some "constructor" }
        contracts
      match r.2 with
      | none => ⟨r.1, [], .returned⟩
      | some e => ⟨r.1, [], .raised e⟩
    else
      match index.get? (trace.funcSelector.getD "undefined") with
      | some (first :: others) =>
        let s := parseTraceParams.select first others trace
        let r := parseTraceParams.tryCatch coder s.1 s.2
        ⟨r.1, r.2, .normal⟩
      | _ => ⟨trace, [], .normal⟩
  else ⟨trace, [], .normal⟩

/-- What `parseTraceParams` leaves behind: the frames of `traces.flat()` after
the pass (they are mutated in place), the warnings written to the console, and
the error raised out of the method, if any. -/
structure PassResult where
  traces : List Trace
  warnings : List String
  raised : Option String

/-- The `for` loop of `parseTraceParams` (line 93). A `return` or a raised
error in the body ends the loop; the later frames stay as they are. -/
def parseTraceParams.loop (coder : AbiCoder) (contracts : Contracts) (index : SelectorIndex) :
    List Trace → PassResult
  | [] => ⟨[], [], none⟩
  | trace :: rest =>
    let it := parseTraceParams.body coder contracts index trace
    match it.completion with
    | .normal =>
      let r := parseTraceParams.loop coder contracts index rest
      ⟨it.trace :: r.traces, it.warnings ++ r.warnings, r.raised⟩
    | .returned => ⟨it.trace :: rest, it.warnings, none⟩
    | .raised e => ⟨it.trace :: rest, it.warnings, some e⟩

/-- The method `parseTraceParams(traces, contracts)` (lines 90-127). -/
def parseTraceParams (coder : AbiCoder) (traces : List (List Trace)) (contracts : Contracts) :
    PassResult :=
  parseTraceParams.loop coder contracts (mapFunctionSelectors2Contracts contracts) traces.flatten

/-! ## Decoding of logs -/

/-- The `forEach` callback of `parseEvent` (lines 239-247) applied to the
inputs from index `i` on. The callback receives the declared input `param`
(which is `log.eventFragment.inputs[i]`) and passes it to
`addValuesToComponents` both as descriptor and as value; the node's value is
`log.args[i]`. -/
def parseEvent.params (args : List Value) :
    List ParamType → Nat → List ParamNode → Except String (List ParamNode)
  | [], _, params => .ok params
  | param :: rest, i, params =>
    match addValuesToComponents param (Value.obj param) with
    | .error e => .error e
    | .ok components =>
      parseEvent.params args rest (i + 1)
        (params ++ [ParamNode.mk param.name param.type (args.getD i Value.undefined) components])

/-- The function `parseEvent(contract, log)` (lines 236-252). -/
def parseEvent (_contract : Contract) (log : LogDescription) : Except String Event :=
  match log.eventFragment.inputs with
  | none => .error "TypeError: Cannot read properties of undefined (reading 'forEach')"
  | some inputs =>
    match parseEvent.params log.args inputs 0 [] with
    | .error e => .error e
    | .ok params => .ok ⟨log.name, params⟩

/-- The JavaScript `s.toLowerCase()` on the characters of an address. -/
def toLowerCase (s : String) : String :=
  ⟨s.data.map Char.toLower⟩

/-- The body of the `for` loop of `parseTransactionLogs` (lines 131-142). An
error raised inside the `try` block is only written to the debug log. -/
def parseTransactionLogs.body (contracts : Contracts) (log : Log) : Contracts :=
  match contracts.get? (toLowerCase log.address) with
  | none => contracts
  | some contract =>
    match contract.ethersContract with
    | none => contracts
    | some ethersContract =>
      match ethersContract.interface.parseLog log with
      | .error _ => contracts
      | .ok event =>
        match parseEvent contract event with
        | .error _ => contracts
        | .ok record => contracts.pushEvent (toLowerCase log.address) record

/-- The method `parseTransactionLogs(logs, contracts)` (lines 128-144). -/
def parseTransactionLogs (logs : List Log) (contracts : Contracts) : Contracts :=
  logs.foldl parseTransactionLogs.body contracts

/-! ## Example inputs -/

namespace Example

/-- The leaf descriptor `uint256 a`. -/
def uintA : ParamType := .mk "a" "uint256" "uint256" none

/-- The leaf descriptor `address b`. -/
def addressB : ParamType := .mk "b" "address" "address" none

/-- The descriptor `tuple(uint256 a, address b) pair`. -/
def pair : ParamType := .mk "pair" "tuple" "tuple" (some [uintA, addressB])

/-- A value for `pair`. -/
def pairValue : Value := .seq [.num 7, .str "0x1111"]

/-- The descriptor `tuple(tuple(uint256 a, address b) pair) outer`. -/
def outer : ParamType := .mk "outer" "tuple" "tuple" (some [pair])

/-- The descriptor `uint256[] amounts`. -/
def amounts : ParamType := .mk "amounts" "uint256[]" "array" none

/-- A value for `amounts`. -/
def amountsValue : Value := .seq [.num 1, .num 2]

/-- The descriptor `uint256[][] grid`. -/
def grid : ParamType := .mk "grid" "uint256[][]" "array" none

/-- The descriptor `uint256[3] triple` of a fixed-length array. -/
def triple : ParamType := .mk "triple" "uint256[3]" "array" none

/-- The function fragment `totalSupply()`. -/
def totalSupply : Fragment := ⟨"function", "totalSupply", some [], some []⟩

/-- The event fragment `Deposit(uint256[] amounts)`. -/
def depositEvent : Fragment := ⟨"event", "Deposit", some [amounts], none⟩

/-- The event fragment `Paid(tuple(uint256 a, address b) pair)`. -/
def paidEvent : Fragment := ⟨"event", "Paid", some [pair], none⟩

/-- An interface declaring `totalSupply()` with selector `0x18160ddd` and the
events `Deposit` and `Paid`; a log with data `0x01` is a `Deposit` of
`[1, 2]`, any other log is a `Paid` of `(7, 0x1111)`. -/
def tokenInterface : Interface where
  fragments := [totalSupply, depositEvent, paidEvent]
  deploy := none
  getSighash := fun _ => "0x18160ddd"
  parseTransaction := fun _ => .ok ⟨"totalSupply", totalSupply, []⟩
  parseLog := fun log =>
    if log.data = "0x01" then .ok ⟨"Deposit", depositEvent, [amountsValue]⟩
    else .ok ⟨"Paid", paidEvent, [pairValue]⟩

/-- The ethers contract of the token. -/
def tokenEthers : EthersContract := ⟨"0xtoken", tokenInterface⟩

/-- The constructor fragment `constructor(uint256 a)`. -/
def constructorFragment : Fragment := ⟨"constructor", "", some [uintA], none⟩

/-- An interface that declares only a constructor. -/
def vaultInterface : Interface where
  fragments := [constructorFragment]
  deploy := some constructorFragment
  getSighash := fun _ => ""
  parseTransaction := fun _ => .error "no matching function"
  parseLog := fun _ => .error "no matching event"

/-- A mapping with a user account, a verified token, two contracts without
interface and a verified vault whose `constructorInputs` is absent. -/
def contracts : Contracts :=
  [("0xuser", ⟨"0xuser", none, none, none, []⟩),
   ("0xtoken", ⟨"0xtoken", some tokenEthers, none, none, []⟩),
   ("0xa", ⟨"0xa", none, none, none, []⟩),
   ("0xb", ⟨"0xb", none, none, none, []⟩),
   ("0xvault", ⟨"0xvault", some ⟨"0xvault", vaultInterface⟩, none, none, []⟩)]

/-- A coder that rejects every input. -/
def coder : AbiCoder := ⟨fun _ _ => .error "data out-of-bounds"⟩

/-- A call of `totalSupply()` on the token: four bytes of call data. -/
def call : Trace where
  id := 1
  type := .Call
  from_ := "0xuser"
  to_ := "0xtoken"
  inputs := some "0x18160ddd"
  outputs := none
  funcSelector := some "0x18160ddd"
  funcName := none
  inputParams := []
  outputParams := []
  proxy := none
  parsedConstructorParams := none
  depth := 0
  error := none

/-- A call with a selector that no contract of the mapping declares. -/
def unknownCall : Trace :=
  { call with id := 2, to_ := "0xa", inputs := some "0xdeadbeef00", funcSelector := some "0xdeadbeef" }

/-- A plain transfer of ether: no call data. -/
def emptyCall : Trace :=
  { call with id := 3, inputs := some "0x", funcSelector := none }

/-- A contract creation with call data. -/
def create : Trace :=
  { call with id := 0, type := .Create, to_ := "0xa", inputs := some "0x6080604052",
              funcSelector := some "0x60806040" }

/-- The creation of the vault, with call data. -/
def createVault : Trace :=
  { create with id := 4, to_ := "0xvault" }

/-- A frame from `sender` to `receiver` at the given depth. -/
def frame (sender receiver : String) (depth : Int) : Trace :=
  { call with from_ := sender, to_ := receiver, depth := depth }

/-- A root frame at depth 0 and a contract invoked at depths 3, 1 and 5. -/
def depthTraces : List (List Trace) :=
  [[frame "0xuser" "0xa" 0, frame "0xa" "0xb" 3, frame "0xa" "0xb" 1, frame "0xa" "0xb" 5]]

/-- A `Deposit` log of the token. -/
def depositLog : Log := ⟨"0xToken", ["0xdeposit"], "0x01"⟩

/-- A `Paid` log of the token. -/
def paidLog : Log := ⟨"0xToken", ["0xpaid"], "0x02"⟩

end Example

/-! ## Definitions for the statements about logs, nested arrays and the selector index -/

/-- The record that the loop body of `parseTransactionLogs` appends for a log,
if any: the contract under the lower-cased address has an interface, the
interface parses the log and `parseEvent` returns. -/
def parseTransactionLogs.record (contracts : Contracts) (log : Log) : Option Event :=
  match contracts.get? (toLowerCase log.address) with
  | none => none
  | some contract =>
    match contract.ethersContract with
    | none => none
    | some ethersContract =>
      match ethersContract.interface.parseLog log with
      | .error _ => none
      | .ok event =>
        match parseEvent contract event with
        | .error _ => none
        | .ok record => some record

/-- The function declarations of one contract as pairs of selector and ethers
contract, in declaration order: nothing for a contract without an interface,
and one pair for each fragment of type "function". -/
def selectorPairs (contract : Contract) : List (String × EthersContract) :=
  match contract.ethersContract with
  | none => []
  | some ethersContract =>
    (ethersContract.interface.fragments.filter fun fragment => fragment.type = "function").map
      fun fragment => (ethersContract.interface.getSighash fragment, ethersContract)

/-- The function declarations of a contract mapping, following the words of
the specification: one pair of selector and contract for every contract with
an interface and every declared function, in contract-map iteration order and
then declaration order. -/
def declarations (contracts : Contracts) : List (String × EthersContract) :=
  (contracts.map Prod.snd).flatMap selectorPairs

/-- The contracts that declare a function with the given selector, one entry
per declaration, in the order of `declarations`. -/
def declaredBy (contracts : Contracts) (selector : String) : List EthersContract :=
  ((declarations contracts).filter fun pair => pair.1 = selector).map Prod.snd

/-- The type string `base` followed by `k` pairs `[]`. -/
def arrayType (base : String) : Nat → String
  | 0 => base
  | k + 1 => arrayType base k ++ "[]"

/-- The descriptor the innermost elements of a nested array are decoded with:
`{ ...paramType, type: base, baseType: base }`. -/
def ParamType.element (paramType : ParamType) (base : String) : ParamType :=
  .mk paramType.name base base paramType.components

/-- A raw value nested `k` sequence levels deep whose innermost elements are
accepted by `leaf`. -/
def NestedValue (leaf : Value → Components) : Nat → Value → Prop
  | 0, v => ∃ c, leaf v = .ok c
  | k + 1, v => ∃ rows, v = .seq rows ∧ ∀ row ∈ rows, NestedValue leaf k row

/-- The nodes decoded from a value nested `k` levels deep, in the words of the
specification: one node per element, named by its index, whose type is `base`
followed by `k - 1` pairs `[]`; at the last level the components are those of
`leaf` on the element, above it they are the nodes of the next level. -/
def NestedLevels (leaf : Value → Components) (base : String) :
    Nat → Value → List ParamNode → Prop
  | 0, _, _ => False
  | k + 1, v, nodes =>
    ∃ rows, v = .seq rows ∧ nodes.length = rows.length ∧
      ∀ (r : Nat) (row : Value), rows[r]? = some row →
        ∃ c, nodes[r]? = some (ParamNode.mk (toString r) (arrayType base k) row c) ∧
          if k = 0 then leaf row = .ok c
          else ∃ sub, c = some sub ∧ NestedLevels leaf base k row sub

namespace Example

/-- The descriptor `tuple(tuple(uint256 a, address b) pair)[] outers`. -/
def outers : ParamType := .mk "outers" "tuple[]" "array" (some [pair])

/-- A value for `grid`, nested two levels deep. -/
def gridValue : Value := .seq [.seq [.num 1, .num 2], .seq [.num 3]]

/-- The descriptor `uint256[2][] matrix`: an array of fixed-length arrays. -/
def matrix : ParamType := .mk "matrix" "uint256[2][]" "array" none

/-- A value for `matrix`. -/
def matrixValue : Value := .seq [.seq [.num 1, .num 2], .seq [.num 3, .num 4]]

/-- The mapping extended by a verified vault whose `constructorInputs` is not
empty. -/
def contractsWithSuffix : Contracts :=
  contracts ++
    [("0xvault2", ⟨"0xvault2", some ⟨"0xvault2", vaultInterface⟩, some "00ff", none, []⟩)]

/-- The creation of the second vault, with call data. -/
def createVault2 : Trace :=
  { create with id := 5, to_ := "0xvault2" }

/-- A call of the selector of `totalSupply()` on a contract without
interface. -/
def proxyCall : Trace :=
  { call with id := 6, to_ := "0xa" }

end Example

namespace Example

/-- The descriptor `address to`. -/
def toParam : ParamType := .mk "to" "address" "address" none

/-- The descriptor `uint256 amount`. -/
def amountParam : ParamType := .mk "amount" "uint256" "uint256" none

/-- The unnamed return type `bool`. -/
def boolResult : ParamType := .mk "" "bool" "bool" none

/-- The function fragment `transfer(address to, uint256 amount) returns (bool)`. -/
def transfer : Fragment := ⟨"function", "transfer", some [toParam, amountParam], some [boolResult]⟩

/-- The description of a call `transfer(0x1111, 1000)`. -/
def transferDescription : TransactionDescription :=
  ⟨"transfer", transfer, [.str "0x1111", .num 1000]⟩

/-- An interface declaring `transfer` with selector `0xa9059cbb`; every call
data parses to `transfer(0x1111, 1000)`. -/
def erc20Interface : Interface where
  fragments := [transfer]
  deploy := none
  getSighash := fun _ => "0xa9059cbb"
  parseTransaction := fun _ => .ok transferDescription
  parseLog := fun _ => .error "no matching event"

/-- The ethers contract of the ERC-20 token. -/
def erc20 : EthersContract := ⟨"0xerc20", erc20Interface⟩

/-- A mapping with a user account and the ERC-20 token. -/
def erc20Contracts : Contracts :=
  [("0xuser", ⟨"0xuser", none, none, none, []⟩),
   ("0xerc20", ⟨"0xerc20", some erc20, none, none, []⟩)]

/-- A coder that decodes every output to the single value 1. -/
def boolCoder : AbiCoder := ⟨fun _ _ => .ok [.num 1]⟩

/-- A call of `transfer` on the ERC-20 token that returned one word. -/
def transferCall : Trace :=
  { call with id := 7, to_ := "0xerc20", inputs := some "0xa9059cbb1111", outputs := some "0x01",
              funcSelector := some "0xa9059cbb" }

end Example

namespace Example

/-- An interface that declares a function with the selector `0x18160ddd` of
`totalSupply()` but parses no call data (a selector collision). -/
def collidingInterface : Interface where
  fragments := [totalSupply]
  deploy := none
  getSighash := fun _ => "0x18160ddd"
  parseTransaction := fun _ => .error "no matching function"
  parseLog := fun _ => .error "no matching event"

/-- A mapping with a user account, a contract without interface and a contract
with the colliding interface. -/
def collisionContracts : Contracts :=
  [("0xuser", ⟨"0xuser", none, none, none, []⟩),
   ("0xa", ⟨"0xa", none, none, none, []⟩),
   ("0xother", ⟨"0xother", some ⟨"0xother", collidingInterface⟩, none, none, []⟩)]

end Example

namespace Example

/-- An interface that declares a function with selector `0x0badc0de` and
raises "data out-of-bounds" on every call data. -/
def brokenInterface : Interface where
  fragments := [totalSupply]
  deploy := none
  getSighash := fun _ => "0x0badc0de"
  parseTransaction := fun _ => .error "data out-of-bounds"
  parseLog := fun _ => .error "no matching event"

/-- A mapping without creation targets: a user account, a contract without
interface, a contract with the colliding interface, the token and a contract
with the broken interface. -/
def failingContracts : Contracts :=
  [("0xuser", ⟨"0xuser", none, none, none, []⟩),
   ("0xa", ⟨"0xa", none, none, none, []⟩),
   ("0xother", ⟨"0xother", some ⟨"0xother", collidingInterface⟩, none, none, []⟩),
   ("0xtoken", ⟨"0xtoken", some tokenEthers, none, none, []⟩),
   ("0xbroken", ⟨"0xbroken", some ⟨"0xbroken", brokenInterface⟩, none, none, []⟩)]

/-- A call on the contract with the broken interface. -/
def brokenCall : Trace :=
  { call with id := 8, to_ := "0xbroken", inputs := some "0x0badc0de00",
              funcSelector := some "0x0badc0de" }

/-- The descriptor `uint256 x`. -/
def xParam : ParamType := .mk "x" "uint256" "uint256" none

/-- The descriptor `uint256[] y`. -/
def yParam : ParamType := .mk "y" "uint256[]" "array" none

/-- The descriptor `tuple(uint256 x, uint256[] y)[1][] p`: a dynamic array of
fixed-length arrays of tuples; as in the library, the array descriptor carries
the components of the tuple. -/
def batchParam : ParamType := .mk "p" "tuple[1][]" "array" (some [xParam, yParam])

/-- The decoded value `[[(7, [8, 9])]]` of type `tuple(uint256,uint256[])[1][]`. -/
def batchValue : Value := .seq [.seq [.seq [.num 7, .seq [.num 8, .num 9]]]]

/-- The function fragment `batch(tuple(uint256 x, uint256[] y)[1][] p)`. -/
def batch : Fragment := ⟨"function", "batch", some [batchParam], some []⟩

/-- An interface declaring `batch` with selector `0xba7c0000`; every call data
parses to `batch([[(7, [8, 9])]])`. -/
def batchInterface : Interface where
  fragments := [batch]
  deploy := none
  getSighash := fun _ => "0xba7c0000"
  parseTransaction := fun _ => .ok ⟨"batch", batch, [batchValue]⟩
  parseLog := fun _ => .error "no matching event"

/-- A mapping with a user account and the contract declaring `batch`. -/
def batchContracts : Contracts :=
  [("0xuser", ⟨"0xuser", none, none, none, []⟩),
   ("0xbatch", ⟨"0xbatch", some ⟨"0xbatch", batchInterface⟩, none, none, []⟩)]

/-- A call of `batch` on its contract. -/
def batchCall : Trace :=
  { call with id := 9, to_ := "0xbatch", inputs := some "0xba7c000000",
              funcSelector := some "0xba7c0000" }

end Example

/-! ### The two branches in the shape of the source -/

theorem arrayLevels_child (paramType : ParamType) (row : Value) :
    arrayLevels (fun v => tupleComponents paramType.components v)
      (sliceDropLast2 paramType.type) (childBaseType (sliceDropLast2 paramType.type)) row
      = addValuesToComponents paramType.child row := by
  cases paramType
  simp [ParamType.child, addValuesToComponents, ParamType.components, ParamType.type]

/-- First branch of the source: `baseType !== "array"`. -/
theorem addValuesToComponents_of_not_array (paramType : ParamType) (args : Value)
    (h : paramType.baseType ≠ "array") :
    addValuesToComponents paramType args =
      match paramType.components with
      | none => .ok none
      | some cs => (tupleFields cs args 0).map some := by
  cases paramType with
  | mk n t b cs =>
    have hb : b ≠ "array" := h
    cases args <;> cases cs <;>
      simp [addValuesToComponents, arrayLevels, tupleComponents, ParamType.components, hb]

/-- Second branch of the source, `args` an array: the rows are decoded with
`arrayRows`, whose recursive call is `addValuesToComponents` on the child
descriptor (see `arrayLevels_child`). -/
theorem addValuesToComponents_of_array (paramType : ParamType) (rows : List Value)
    (h : paramType.baseType = "array") :
    addValuesToComponents paramType (.seq rows) =
      (arrayRows (fun v => tupleComponents paramType.components v)
        (sliceDropLast2 paramType.type) rows 0).map some := by
  cases paramType with
  | mk n t b cs =>
    have hb : b = "array" := h
    simp [addValuesToComponents, arrayLevels, ParamType.components, ParamType.type, hb]

/-- Second branch of the source, `args` not an array: calling `args.map`
raises a `TypeError`. -/
theorem addValuesToComponents_of_array_not_seq (paramType : ParamType) (args : Value)
    (h : paramType.baseType = "array") (hargs : ∀ rows, args ≠ .seq rows) :
    ∃ e, addValuesToComponents paramType args = .error e := by
  cases paramType with
  | mk n t b cs =>
    have hb : b = "array" := h
    cases args <;> simp_all [addValuesToComponents, arrayLevels]

/-- The rows loop returns one node per row when every row decodes. -/
theorem arrayRows_ok (tuple : Value → Components) (childType : String) (rows : List Value)
    (r0 : Nat)
    (h : ∀ (r : Nat) (row : Value), rows[r]? = some row →
      ∃ c, arrayLevels tuple childType (childBaseType childType) row = .ok c) :
    ∃ nodes, arrayRows tuple childType rows r0 = .ok nodes ∧ nodes.length = rows.length ∧
      ∀ (r : Nat) (row : Value), rows[r]? = some row →
        ∃ c, arrayLevels tuple childType (childBaseType childType) row = .ok c ∧
          nodes[r]? = some (ParamNode.mk (toString (r0 + r)) childType row c) := by
  induction rows generalizing r0 with
  | nil => exact ⟨[], rfl, rfl, by simp⟩
  | cons row rest ih =>
    obtain ⟨c, hc⟩ := h 0 row (by simp)
    obtain ⟨nodes, hn, hlen, hget⟩ := ih (r0 + 1) (fun r x hx => h (r + 1) x (by simpa using hx))
    refine ⟨ParamNode.mk (toString r0) childType row c :: nodes, ?_, by simp [hlen], ?_⟩
    · simp [arrayRows, hc, hn]
    · intro r x hx
      cases r with
      | zero =>
        simp at hx; subst hx
        exact ⟨c, hc, by simp⟩
      | succ r =>
        obtain ⟨c2, hc2, hg⟩ := hget r x (by simpa using hx)
        refine ⟨c2, hc2, ?_⟩
        simp only [List.getElem?_cons_succ, hg]
        congr 3
        omega

/-- The components loop returns one node per component when every field can
be read and decodes. -/
theorem tupleFields_ok (cs : List ParamType) (args : Value) (j0 : Nat)
    (h : ∀ (j : Nat) (c : ParamType), cs[j]? = some c →
      ∃ v r, args.index (j0 + j) = .ok v ∧ addValuesToComponents c v = .ok r) :
    ∃ nodes, tupleFields cs args j0 = .ok nodes ∧ nodes.length = cs.length ∧
      ∀ (j : Nat) (c : ParamType), cs[j]? = some c →
        ∃ v r, args.index (j0 + j) = .ok v ∧ addValuesToComponents c v = .ok r ∧
          nodes[j]? = some (ParamNode.mk c.name c.type v r) := by
  induction cs generalizing j0 with
  | nil => exact ⟨[], rfl, rfl, by simp⟩
  | cons c rest ih =>
    obtain ⟨v, r, hv, hr⟩ := h 0 c (by simp)
    obtain ⟨nodes, hn, hlen, hget⟩ := ih (j0 + 1) (fun j x hx => by
      have := h (j + 1) x (by simpa using hx)
      rwa [show j0 + (j + 1) = j0 + 1 + j by omega] at this)
    refine ⟨ParamNode.mk c.name c.type v r :: nodes, ?_, by simp [hlen], ?_⟩
    · simp only [Nat.add_zero] at hv
      simp [tupleFields, hv, hr, hn]
    · intro j x hx
      cases j with
      | zero =>
        simp at hx; subst hx
        exact ⟨v, r, hv, hr, by simp⟩
      | succ j =>
        obtain ⟨v2, r2, hv2, hr2, hg⟩ := hget j x (by simpa using hx)
        refine ⟨v2, r2, ?_, hr2, by simpa using hg⟩
        rwa [show j0 + (j + 1) = j0 + 1 + j by omega]

theorem sliceDropLast2_append (elemType : String) : sliceDropLast2 (elemType ++ "[]") = elemType := by
  cases elemType with
  | mk cs =>
    show String.mk _ = _
    congr 1
    simp [String.data_append]
/-! ## Depth annotation: lemmas -/

theorem Contracts.setMinDepth_cons (k : String) (c : Contract) (rest : Contracts) (a : String)
    (d : Int) :
    Contracts.setMinDepth ((k, c) :: rest) a d =
      (if k = a then (k, { c with minDepth := some d }) else (k, c)) ::
        Contracts.setMinDepth rest a d := rfl

theorem Contracts.minDepthOf_setMinDepth (contracts : Contracts) (a b : String) (d : Int) :
    (contracts.setMinDepth a d).minDepthOf b =
      if b = a then (contracts.minDepthOf b).map (fun _ => some d) else contracts.minDepthOf b := by
  induction contracts with
  | nil => simp [Contracts.setMinDepth, Contracts.minDepthOf, Contracts.get?]
  | cons entry rest ih =>
    obtain ⟨k, c⟩ := entry
    rw [Contracts.setMinDepth_cons]
    simp only [Contracts.minDepthOf] at ih ⊢
    by_cases hka : k = a
    · rw [if_pos hka]
      by_cases hkb : k = b
      · have hba : b = a := hkb.symm.trans hka
        simp [Contracts.get?, hkb, hba]
      · have hba : ¬ b = a := fun h => hkb (hka.trans h.symm)
        simp only [Contracts.get?, hkb, if_false, hba] at ih ⊢
        exact ih
    · rw [if_neg hka]
      by_cases hkb : k = b
      · have hba : ¬ b = a := fun h => hka (hkb.trans h)
        simp [Contracts.get?, hkb, hba]
      · simp only [Contracts.get?, hkb, if_false]
        exact ih

theorem parseTraceDepths.loop_spec (ts : List Trace) (contracts : Contracts)
    (hkeys : ∀ t ∈ ts, (contracts.get? t.to_).isSome = true) :
    ∃ result, parseTraceDepths.loop ts contracts = .ok result ∧
      ∀ a, result.minDepthOf a =
        (contracts.minDepthOf a).map fun m =>
          ((ts.filter fun t => t.to_ = a).map fun t => t.depth).foldl minStep m := by
  induction ts generalizing contracts with
  | nil => exact ⟨contracts, rfl, fun a => by simp⟩
  | cons t rest ih =>
    have ht := hkeys t (List.mem_cons_self _ _)
    obtain ⟨c, hc⟩ := Option.isSome_iff_exists.mp ht
    -- the mapping after the first iteration
    have key : ∃ next : Contracts,
        parseTraceDepths.loop (t :: rest) contracts = parseTraceDepths.loop rest next ∧
        (∀ a, next.minDepthOf a =
          (contracts.minDepthOf a).map fun m => if t.to_ = a then minStep m t.depth else m) := by
      cases hm : c.minDepth with
      | none =>
        refine ⟨contracts.setMinDepth t.to_ t.depth, by simp [parseTraceDepths.loop, hc, hm], ?_⟩
        intro a
        rw [Contracts.minDepthOf_setMinDepth]
        by_cases h : a = t.to_
        · subst h; simp [Contracts.minDepthOf, hc, hm, minStep]
        · have h2 : ¬ t.to_ = a := fun e => h e.symm
          simp [h, h2]
      | some m =>
        by_cases hlt : t.depth < m
        · refine ⟨contracts.setMinDepth t.to_ t.depth,
            by simp [parseTraceDepths.loop, hc, hm, hlt], ?_⟩
          intro a
          rw [Contracts.minDepthOf_setMinDepth]
          by_cases h : a = t.to_
          · subst h; simp [Contracts.minDepthOf, hc, hm, minStep, hlt]
          · have h2 : ¬ t.to_ = a := fun e => h e.symm
            simp [h, h2]
        · refine ⟨contracts, by simp [parseTraceDepths.loop, hc, hm, hlt], ?_⟩
          intro a
          by_cases h : a = t.to_
          · subst h; simp [Contracts.minDepthOf, hc, hm, minStep, hlt]
          · have h2 : ¬ t.to_ = a := fun e => h e.symm
            simp [h2]
    obtain ⟨next, hloop, hnext⟩ := key
    have hkeys2 : ∀ u ∈ rest, (next.get? u.to_).isSome = true := by
      intro u hu
      have h1 := hkeys u (List.mem_cons_of_mem _ hu)
      have h2 := hnext u.to_
      simp only [Contracts.minDepthOf] at h2
      cases hg : next.get? u.to_ with
      | some _ => rfl
      | none =>
        obtain ⟨c2, hc2⟩ := Option.isSome_iff_exists.mp h1
        simp [hg, hc2] at h2
    obtain ⟨result, hres, hspec⟩ := ih next hkeys2
    refine ⟨result, hloop.trans hres, ?_⟩
    intro a
    rw [hspec a, hnext a]
    cases contracts.minDepthOf a with
    | none => rfl
    | some m =>
      by_cases h : t.to_ = a
      · simp [h, List.filter_cons]
      · simp [h, List.filter_cons]

theorem minStep_foldl_some (ds : List Int) (x : Int) :
    ∃ r, ds.foldl minStep (some x) = some r ∧ r ≤ x ∧ (∀ d ∈ ds, r ≤ d) ∧ (r = x ∨ r ∈ ds) := by
  induction ds generalizing x with
  | nil => exact ⟨x, rfl, le_refl _, by simp, Or.inl rfl⟩
  | cons d rest ih =>
    by_cases h : d < x
    · obtain ⟨r, hr, hle, hall, hmem⟩ := ih d
      refine ⟨r, by simp [List.foldl, minStep, h, hr], by omega, ?_, ?_⟩
      · intro e he
        rcases List.mem_cons.mp he with rfl | he
        · exact hle
        · exact hall e he
      · rcases hmem with rfl | hmem
        · exact Or.inr (List.mem_cons_self _ _)
        · exact Or.inr (List.mem_cons_of_mem _ hmem)
    · obtain ⟨r, hr, hle, hall, hmem⟩ := ih x
      refine ⟨r, by simp [List.foldl, minStep, h, hr], hle, ?_, ?_⟩
      · intro e he
        rcases List.mem_cons.mp he with rfl | he
        · omega
        · exact hall e he
      · rcases hmem with rfl | hmem
        · exact Or.inl rfl
        · exact Or.inr (List.mem_cons_of_mem _ hmem)

theorem Contracts.get?_mem (contracts : Contracts) (a : String) (c : Contract)
    (h : contracts.get? a = some c) : (a, c) ∈ contracts := by
  induction contracts with
  | nil => simp [Contracts.get?] at h
  | cons entry rest ih =>
    obtain ⟨k, c2⟩ := entry
    by_cases hk : k = a
    · simp [Contracts.get?, hk] at h
      subst h; subst hk
      exact List.mem_cons_self _ _
    · simp only [Contracts.get?, hk, if_false] at h
      exact List.mem_cons_of_mem _ (ih h)

theorem minStep_foldl_none (ds : List Int) (hne : ds ≠ []) :
    ∃ r, ds.foldl minStep none = some r ∧ (∀ d ∈ ds, r ≤ d) ∧ r ∈ ds := by
  cases ds with
  | nil => exact absurd rfl hne
  | cons d rest =>
    obtain ⟨r, hr, hle, hall, hmem⟩ := minStep_foldl_some rest d
    refine ⟨r, by simpa [List.foldl, minStep] using hr, ?_, ?_⟩
    · intro e he
      rcases List.mem_cons.mp he with rfl | he
      · exact hle
      · exact hall e he
    · rcases hmem with rfl | hmem
      · exact List.mem_cons_self _ _
      · exact List.mem_cons_of_mem _ hmem

/-! ## Depth annotation: theorems -/

/-- C1. Depth Annotator (`parseTraceDepths`): for a non-empty flattened trace
list whose frames have non-negative depths and whose `from`/`to` addresses are
all keys of the contract mapping, and with no contract carrying a `minDepth`
beforehand, the pass completes and every address that is the `to` of at least
one frame has a `minDepth`: 0 when the address is the first frame's `from`,
and otherwise the least depth among the frames with that `to` (it is the depth
of one of them and is at most the depth of each of them). -/
theorem parseTraceDepths_minDepth (traces : List (List Trace)) (contracts : Contracts)
    (first : Trace) (rest : List Trace)
    (hflat : traces.flatten = first :: rest)
    (hdepth : ∀ t ∈ traces.flatten, 0 ≤ t.depth)
    (hkeys : ∀ t ∈ traces.flatten,
      (contracts.get? t.from_).isSome = true ∧ (contracts.get? t.to_).isSome = true)
    (hfresh : ∀ entry ∈ contracts, entry.2.minDepth = none) :
    ∃ result, parseTraceDepths traces contracts = .ok result ∧
      ∀ a, (∃ t ∈ traces.flatten, t.to_ = a) →
        ∃ m, (result.get? a).map (fun c => c.minDepth) = some (some m) ∧
          if a = first.from_ then m = 0
          else (∃ t ∈ traces.flatten, t.to_ = a ∧ t.depth = m) ∧
            ∀ t ∈ traces.flatten, t.to_ = a → m ≤ t.depth := by
  have hfirst := (hkeys first (by rw [hflat]; exact List.mem_cons_self _ _)).1
  obtain ⟨c0, hc0⟩ := Option.isSome_iff_exists.mp hfirst
  have hkeys2 : ∀ t ∈ first :: rest,
      ((contracts.setMinDepth first.from_ 0).get? t.to_).isSome = true := by
    intro t ht
    have h1 := (hkeys t (by rw [hflat]; exact ht)).2
    obtain ⟨c, hc⟩ := Option.isSome_iff_exists.mp h1
    have h2 := Contracts.minDepthOf_setMinDepth contracts first.from_ t.to_ 0
    simp only [Contracts.minDepthOf, hc] at h2
    cases hg : (contracts.setMinDepth first.from_ 0).get? t.to_ with
    | some _ => rfl
    | none => rw [hg] at h2; split at h2 <;> simp at h2
  obtain ⟨result, hres, hspec⟩ := parseTraceDepths.loop_spec (first :: rest) _ hkeys2
  refine ⟨result, by simp [parseTraceDepths, hflat, hc0, hres], ?_⟩
  rintro a ⟨t, ht, hta⟩
  obtain ⟨c, hc⟩ := Option.isSome_iff_exists.mp (hkeys t ht).2
  rw [hta] at hc
  have hcnone : c.minDepth = none := hfresh (a, c) (Contracts.get?_mem _ _ _ hc)
  have hsp := hspec a
  rw [Contracts.minDepthOf_setMinDepth] at hsp
  simp only [Contracts.minDepthOf, hc, Option.map_some', hcnone] at hsp
  rw [← hflat] at hsp
  -- the depths of the frames whose `to` is `a`
  have hmemds : ∀ d, d ∈ ((traces.flatten.filter fun t => t.to_ = a).map fun t => t.depth) ↔
      ∃ u ∈ traces.flatten, u.to_ = a ∧ u.depth = d := by
    intro d
    simp only [List.mem_map, List.mem_filter, decide_eq_true_eq]
    constructor
    · rintro ⟨u, ⟨hu, hua⟩, hud⟩
      exact ⟨u, hu, hua, hud⟩
    · rintro ⟨u, hu, hua, hud⟩
      exact ⟨u, ⟨hu, hua⟩, hud⟩
  by_cases hfa : a = first.from_
  · simp only [hfa, if_true] at hsp ⊢
    obtain ⟨r, hr, hle, _, hmem⟩ := minStep_foldl_some
      ((traces.flatten.filter fun t => t.to_ = first.from_).map fun t => t.depth) 0
    have hr0 : r = 0 := by
      rcases hmem with h | h
      · exact h
      · have hnonneg : 0 ≤ r := by
          simp only [List.mem_map, List.mem_filter] at h
          obtain ⟨u, ⟨hu, _⟩, hud⟩ := h
          have := hdepth u hu
          omega
        omega
    refine ⟨0, ?_, rfl⟩
    have : (result.get? first.from_).map (fun c => c.minDepth) = some (some r) := by
      have := hsp
      simp only [Contracts.minDepthOf, Option.map_some'] at this
      rw [this, hr]
    rw [this, hr0]
  · simp only [hfa, if_false] at hsp ⊢
    have hne : ((traces.flatten.filter fun t => t.to_ = a).map fun t => t.depth) ≠ [] := by
      intro h
      have := (hmemds t.depth).mpr ⟨t, ht, hta, rfl⟩
      rw [h] at this
      exact absurd this (List.not_mem_nil _)
    obtain ⟨r, hr, hall, hmem⟩ := minStep_foldl_none _ hne
    refine ⟨r, ?_, (hmemds r).mp hmem, ?_⟩
    · rw [hsp, Option.map_some', hr]
    · intro u hu hua
      exact hall u.depth ((hmemds u.depth).mpr ⟨u, hu, hua, rfl⟩)

/-! ## Parameter decoder: theorems -/

/-- C2 (amended). Parameter Decoder, tuple case: for every descriptor whose
base category is not "array" and that declares N components, and every raw
value whose first N fields can be read and decode without error against the
corresponding components, `addValuesToComponents` returns exactly N child nodes
in declaration order; the j-th child has the name and type of the j-th declared
component, its value is the j-th field of the raw value, and its components are
`addValuesToComponents` applied to that component and that field. -/
theorem addValuesToComponents_tuple (paramType : ParamType) (cs : List ParamType) (args : Value)
    (hbase : paramType.baseType ≠ "array") (hcs : paramType.components = some cs)
    (hfields : ∀ (j : Nat) (c : ParamType), cs[j]? = some c →
      ∃ v r, args.index j = .ok v ∧ addValuesToComponents c v = .ok r) :
    ∃ nodes, addValuesToComponents paramType args = .ok (some nodes) ∧
      nodes.length = cs.length ∧
      ∀ (j : Nat) (c : ParamType), cs[j]? = some c →
        ∃ v r, args.index j = .ok v ∧ addValuesToComponents c v = .ok r ∧
          nodes[j]? = some (ParamNode.mk c.name c.type v r) := by
  obtain ⟨nodes, hn, hlen, hget⟩ := tupleFields_ok cs args 0 (by simpa using hfields)
  refine ⟨nodes, ?_, hlen, by simpa using hget⟩
  rw [addValuesToComponents_of_not_array _ _ hbase, hcs]
  simp [hn, Except.map]

/-- Witness of C2: the descriptor `tuple(uint256 a, address b)` and the value
`[7, "0x1111"]`. -/
theorem addValuesToComponents_tuple_witness :
    ∃ nodes, addValuesToComponents Example.pair Example.pairValue = .ok (some nodes) ∧
      nodes.length = 2 ∧
      nodes[0]? = some (ParamNode.mk "a" "uint256" (.num 7) none) ∧
      nodes[1]? = some (ParamNode.mk "b" "address" (.str "0x1111") none) := by
  obtain ⟨nodes, h, hlen, hget⟩ := addValuesToComponents_tuple Example.pair
    [Example.uintA, Example.addressB] Example.pairValue (by decide) rfl (by
      intro j c hc
      match j with
      | 0 => cases hc; exact ⟨_, _, rfl, rfl⟩
      | 1 => cases hc; exact ⟨_, _, rfl, rfl⟩
      | j + 2 => simp at hc)
  refine ⟨nodes, h, hlen, ?_, ?_⟩
  · obtain ⟨v, r, hv, hr, hn⟩ := hget 0 Example.uintA rfl
    cases hv; cases hr; exact hn
  · obtain ⟨v, r, hv, hr, hn⟩ := hget 1 Example.addressB rfl
    cases hv; cases hr; exact hn

/-- Counterexample to C2 as stated (for every raw value): the descriptor
`tuple(tuple(uint256 a, address b) pair)` is not an array and declares one
component, yet on the raw value `[]` the call raises instead of returning one
child node: `[][0]` is `undefined`, and reading field 0 of `undefined` for the
inner tuple is a `TypeError`. -/
theorem addValuesToComponents_tuple_raises :
    Example.outer.baseType ≠ "array" ∧
    Example.outer.components = some [Example.pair] ∧
    addValuesToComponents Example.outer (.seq []) =
      .error "TypeError: Cannot read properties of undefined" ∧
    ¬ ∃ nodes, addValuesToComponents Example.outer (.seq []) = .ok (some nodes) ∧
      nodes.length = 1 := by
  refine ⟨by decide, rfl, rfl, ?_⟩
  rintro ⟨nodes, h, _⟩
  have h2 : addValuesToComponents Example.outer (.seq []) =
      .error "TypeError: Cannot read properties of undefined" := rfl
  rw [h2] at h
  cases h

/-- C3 (amended). Parameter Decoder, array case: for every descriptor whose
base category is "array" and whose type string ends in `[]`, and every raw
value that is a sequence of length L whose elements decode without error
against the child descriptor, `addValuesToComponents` returns exactly L child
nodes; the r-th child (zero-based) has name equal to the decimal string of r,
value equal to the r-th element of the sequence, type equal to the parent's
type string with the trailing `[]` removed, and as components the decoding of
the element against the child descriptor. -/
theorem addValuesToComponents_array (paramType : ParamType) (elemType : String)
    (rows : List Value)
    (hbase : paramType.baseType = "array") (htype : paramType.type = elemType ++ "[]")
    (hrows : ∀ (r : Nat) (row : Value), rows[r]? = some row →
      ∃ c, addValuesToComponents paramType.child row = .ok c) :
    ∃ nodes, addValuesToComponents paramType (.seq rows) = .ok (some nodes) ∧
      nodes.length = rows.length ∧
      ∀ (r : Nat) (row : Value), rows[r]? = some row →
        ∃ c, addValuesToComponents paramType.child row = .ok c ∧
          nodes[r]? = some (ParamNode.mk (toString r) elemType row c) := by
  have hslice : sliceDropLast2 paramType.type = elemType := by
    rw [htype, sliceDropLast2_append]
  obtain ⟨nodes, hn, hlen, hget⟩ := arrayRows_ok
    (fun v => tupleComponents paramType.components v) (sliceDropLast2 paramType.type) rows 0
    (by
      intro r row hr
      rw [arrayLevels_child]
      exact hrows r row hr)
  refine ⟨nodes, ?_, hlen, ?_⟩
  · rw [addValuesToComponents_of_array _ _ hbase]
    simp [hn, Except.map]
  · intro r row hr
    obtain ⟨c, hc, hnode⟩ := hget r row hr
    rw [arrayLevels_child] at hc
    refine ⟨c, hc, ?_⟩
    rw [hnode, hslice]
    simp

/-- Witness of C3: the descriptor `uint256[] amounts` and the value `[1, 2]`. -/
theorem addValuesToComponents_array_witness :
    ∃ nodes, addValuesToComponents Example.amounts Example.amountsValue = .ok (some nodes) ∧
      nodes.length = 2 ∧
      nodes[0]? = some (ParamNode.mk "0" "uint256" (.num 1) none) ∧
      nodes[1]? = some (ParamNode.mk "1" "uint256" (.num 2) none) := by
  obtain ⟨nodes, h, hlen, hget⟩ := addValuesToComponents_array Example.amounts "uint256"
    [.num 1, .num 2] rfl (by decide) (by
      intro r row hr
      match r with
      | 0 => cases hr; exact ⟨_, rfl⟩
      | 1 => cases hr; exact ⟨_, rfl⟩
      | r + 2 => simp at hr)
  refine ⟨nodes, h, hlen, ?_, ?_⟩
  · obtain ⟨c, hc, hn⟩ := hget 0 (.num 1) rfl
    cases hc; exact hn
  · obtain ⟨c, hc, hn⟩ := hget 1 (.num 2) rfl
    cases hc; exact hn

/-- Counterexample to C3 as stated (for every descriptor of base category
"array" and every sequence). The descriptor `uint256[][] grid` has base
category "array" and the raw value `[1]` is a sequence of length 1, yet the
call raises instead of returning one child node: the child type `uint256[]` is
an array again and `(1).map` is not a function. And for the fixed-length array
`uint256[3] triple`, whose type string has no trailing `[]`, the children get
the type string without its last two characters. -/
theorem addValuesToComponents_array_raises :
    Example.grid.baseType = "array" ∧
    addValuesToComponents Example.grid (.seq [.num 1]) =
      .error "TypeError: args.map is not a function" ∧
    (¬ ∃ nodes, addValuesToComponents Example.grid (.seq [.num 1]) = .ok (some nodes) ∧
      nodes.length = 1) ∧
    Example.triple.baseType = "array" ∧
    addValuesToComponents Example.triple (.seq [.num 1, .num 2, .num 3]) =
      .ok (some [ParamNode.mk "0" "uint256[" (.num 1) none,
                 ParamNode.mk "1" "uint256[" (.num 2) none,
                 ParamNode.mk "2" "uint256[" (.num 3) none]) := by
  refine ⟨rfl, rfl, ?_, rfl, rfl⟩
  rintro ⟨nodes, h, _⟩
  have h2 : addValuesToComponents Example.grid (.seq [.num 1]) =
      .error "TypeError: args.map is not a function" := rfl
  rw [h2] at h
  cases h

/-- Witness of C1: a root frame at depth 0 and a contract invoked at depths 3,
1 and 5. -/
theorem parseTraceDepths_minDepth_witness :
    ∃ result, parseTraceDepths Example.depthTraces Example.contracts = .ok result ∧
      ∀ a, (∃ t ∈ Example.depthTraces.flatten, t.to_ = a) →
        ∃ m, (result.get? a).map (fun c => c.minDepth) = some (some m) ∧
          if a = "0xuser" then m = 0
          else (∃ t ∈ Example.depthTraces.flatten, t.to_ = a ∧ t.depth = m) ∧
            ∀ t ∈ Example.depthTraces.flatten, t.to_ = a → m ≤ t.depth :=
  parseTraceDepths_minDepth Example.depthTraces Example.contracts
    (Example.frame "0xuser" "0xa" 0)
    [Example.frame "0xa" "0xb" 3, Example.frame "0xa" "0xb" 1, Example.frame "0xa" "0xb" 5]
    rfl (by decide) (by decide) (by decide)

/-! ## The pass over the call frames: lemmas -/

theorem hasCallData_eq_false (t : Trace) (h : ∀ s, t.inputs = some s → s.length < 10) :
    hasCallData t = false := by
  unfold hasCallData
  cases hi : t.inputs with
  | none => rfl
  | some s =>
    have := h s hi
    simp
    omega

/-- A frame without call data is left as it is. -/
theorem parseTraceParams.body_skip (coder : AbiCoder) (contracts : Contracts)
    (index : SelectorIndex) (t : Trace) (h : hasCallData t = false) :
    parseTraceParams.body coder contracts index t = ⟨t, [], .normal⟩ := by
  simp [parseTraceParams.body, h]

/-- A frame that is not a creation and whose selector has no candidate is left
as it is. -/
theorem parseTraceParams.body_no_candidate (coder : AbiCoder) (contracts : Contracts)
    (index : SelectorIndex) (t : Trace) (htype : t.type ≠ MessageType.Create)
    (hcand : candidatesOf index t = []) :
    parseTraceParams.body coder contracts index t = ⟨t, [], .normal⟩ := by
  unfold candidatesOf at hcand
  unfold parseTraceParams.body
  split
  · try rw [if_neg htype]
    split
    · rename_i first others heq
      rw [heq] at hcand
      simp at hcand
    · rfl
  · rfl

/-- A frame with call data that is not a creation and whose selector has
candidates goes through selection and the `try`/`catch` statement. -/
theorem parseTraceParams.body_call (coder : AbiCoder) (contracts : Contracts)
    (index : SelectorIndex) (t : Trace) (first : EthersContract) (others : List EthersContract)
    (hcall : hasCallData t = true) (htype : t.type ≠ MessageType.Create)
    (hcand : candidatesOf index t = first :: others) :
    parseTraceParams.body coder contracts index t =
      ⟨(parseTraceParams.tryCatch coder (parseTraceParams.select first others t).1
          (parseTraceParams.select first others t).2).1,
       (parseTraceParams.tryCatch coder (parseTraceParams.select first others t).1
          (parseTraceParams.select first others t).2).2, .normal⟩ := by
  unfold candidatesOf at hcand
  unfold parseTraceParams.body
  rw [if_pos hcall, if_neg htype]
  cases hg : index.get? (t.funcSelector.getD "undefined") with
  | none => rw [hg] at hcand; simp at hcand
  | some l =>
    rw [hg] at hcand
    simp only [Option.getD_some] at hcand
    subst hcand
    rfl

/-- Only a creation frame with call data ends the loop. -/
theorem parseTraceParams.body_normal (coder : AbiCoder) (contracts : Contracts)
    (index : SelectorIndex) (t : Trace)
    (h : ¬ (hasCallData t = true ∧ t.type = MessageType.Create)) :
    (parseTraceParams.body coder contracts index t).completion = .normal := by
  unfold parseTraceParams.body
  split
  · rename_i hc
    have htype : t.type ≠ MessageType.Create := fun e => h ⟨hc, e⟩
    rw [if_neg htype]
    split <;> rfl
  · rfl

/-- The frames before the first creation frame with call data are all
processed, and the loop goes on with the frames after them. -/
theorem parseTraceParams.loop_append (coder : AbiCoder) (contracts : Contracts)
    (index : SelectorIndex) (pre rest : List Trace)
    (hpre : ∀ u ∈ pre, ¬ (hasCallData u = true ∧ u.type = MessageType.Create)) :
    parseTraceParams.loop coder contracts index (pre ++ rest) =
      ⟨pre.map (fun u => (parseTraceParams.body coder contracts index u).trace) ++
          (parseTraceParams.loop coder contracts index rest).traces,
        (pre.map fun u => (parseTraceParams.body coder contracts index u).warnings).flatten ++
          (parseTraceParams.loop coder contracts index rest).warnings,
        (parseTraceParams.loop coder contracts index rest).raised⟩ := by
  induction pre with
  | nil => simp
  | cons u pre ih =>
    have hu := parseTraceParams.body_normal coder contracts index u
      (hpre u (List.mem_cons_self _ _))
    have ih2 := ih (fun v hv => hpre v (List.mem_cons_of_mem _ hv))
    rw [List.cons_append, parseTraceParams.loop]
    simp only [hu]
    rw [ih2]
    simp

/-- The loop keeps the number and the order of the frames; each frame is
either processed by the body or left as it is. -/
theorem parseTraceParams.loop_getElem? (coder : AbiCoder) (contracts : Contracts)
    (index : SelectorIndex) (ts : List Trace) (i : Nat) (t : Trace) (h : ts[i]? = some t) :
    (parseTraceParams.loop coder contracts index ts).traces[i]? =
        some (parseTraceParams.body coder contracts index t).trace ∨
      (parseTraceParams.loop coder contracts index ts).traces[i]? = some t := by
  induction ts generalizing i with
  | nil => simp at h
  | cons u rest ih =>
    cases i with
    | zero =>
      simp at h
      subst h
      left
      simp only [parseTraceParams.loop]
      split <;> simp
    | succ i =>
      have h2 : rest[i]? = some t := by simpa using h
      simp only [parseTraceParams.loop]
      split
      · simpa using ih i h2
      · right; simpa using h2
      · right; simpa using h2

/-- The frame reached by the loop is replaced by the result of the body. -/
theorem parseTraceParams.loop_reached (coder : AbiCoder) (contracts : Contracts)
    (index : SelectorIndex) (pre : List Trace) (t : Trace) (post : List Trace)
    (hpre : ∀ u ∈ pre, ¬ (hasCallData u = true ∧ u.type = MessageType.Create)) :
    (parseTraceParams.loop coder contracts index (pre ++ t :: post)).traces[pre.length]? =
      some (parseTraceParams.body coder contracts index t).trace := by
  rw [parseTraceParams.loop_append coder contracts index pre (t :: post) hpre]
  simp only []
  rw [List.getElem?_append_right (by simp)]
  simp only [List.length_map, Nat.sub_self, parseTraceParams.loop]
  split <;> simp

theorem addInputParamsToTrace_fst (t : Trace) (tx : TransactionDescription) :
    (addInputParamsToTrace t tx).1 =
      { t with inputParams := (pushParams tx.functionFragment.inputs tx.args 0 t.inputParams).1 } :=
  rfl

theorem addOutputParamsToTrace_fst (coder : AbiCoder) (t : Trace) (tx : TransactionDescription) :
    ∃ outs, (addOutputParamsToTrace coder t tx).1 = { t with outputParams := outs } := by
  unfold addOutputParamsToTrace
  split
  · exact ⟨t.outputParams, rfl⟩
  · dsimp only
    split
    · exact ⟨t.outputParams, rfl⟩
    · exact ⟨_, rfl⟩

/-- The `try` block changes at most `funcName`, `inputParams` and
`outputParams`. -/
theorem parseTraceParams.tryBlock_fst (coder : AbiCoder) (c : EthersContract) (t : Trace) :
    ∃ name ins outs, (parseTraceParams.tryBlock coder c t).1 =
      { t with funcName := name, inputParams := ins, outputParams := outs } := by
  unfold parseTraceParams.tryBlock
  split
  · exact ⟨t.funcName, t.inputParams, t.outputParams, rfl⟩
  · rename_i tx _
    simp only []
    split
    · exact ⟨_, _, t.outputParams, rfl⟩
    · obtain ⟨outs, ho⟩ := addOutputParamsToTrace_fst coder
        (addInputParamsToTrace { t with funcName := some tx.name } tx).1 tx
      exact ⟨_, _, outs, ho⟩

/-- When the interface parses the call data, the `try` block sets `funcName`
to the parsed name. -/
theorem parseTraceParams.tryBlock_funcName (coder : AbiCoder) (c : EthersContract) (t : Trace)
    (tx : TransactionDescription)
    (h : c.interface.parseTransaction (t.inputs.getD "") = .ok tx) :
    (parseTraceParams.tryBlock coder c t).1.funcName = some tx.name := by
  unfold parseTraceParams.tryBlock
  rw [h]
  simp only []
  split
  · rfl
  · obtain ⟨outs, ho⟩ := addOutputParamsToTrace_fst coder
      (addInputParamsToTrace { t with funcName := some tx.name } tx).1 tx
    rw [ho]
    rfl

theorem parseTraceParams.tryCatch_fst (coder : AbiCoder) (c : EthersContract) (t : Trace) :
    (parseTraceParams.tryCatch coder c t).1 = (parseTraceParams.tryBlock coder c t).1 := by
  unfold parseTraceParams.tryCatch
  simp only []
  split
  · rfl
  · split <;> rfl

theorem parseTraceParams.tryCatch_proxy (coder : AbiCoder) (c : EthersContract) (t : Trace) :
    (parseTraceParams.tryCatch coder c t).1.proxy = t.proxy := by
  rw [parseTraceParams.tryCatch_fst]
  obtain ⟨name, ins, outs, h⟩ := parseTraceParams.tryBlock_fst coder c t
  rw [h]

/-! ## The pass over the call frames: theorems -/

/-- Candidate selection for a frame that the loop reaches (no creation frame
with call data comes before it in the flattened list): for a frame that is not
a creation, has call data and whose selector has a non-empty candidate list, if
some candidate's address equals the frame's `to` address then such a
candidate's interface is used to parse the call data and the proxy flag is not
touched; if no candidate's address equals `to`, the first candidate in index
order is used and the frame's proxy flag is set to true. -/
theorem parseTraceParams_select (coder : AbiCoder) (traces : List (List Trace))
    (contracts : Contracts) (pre : List Trace) (t : Trace) (post : List Trace)
    (first : EthersContract) (others : List EthersContract)
    (hflat : traces.flatten = pre ++ t :: post)
    (hpre : ∀ u ∈ pre, ¬ (hasCallData u = true ∧ u.type = MessageType.Create))
    (hcall : hasCallData t = true) (htype : t.type ≠ MessageType.Create)
    (hcands : candidatesOf (mapFunctionSelectors2Contracts contracts) t = first :: others) :
    ((∃ c ∈ first :: others, c.address = t.to_) →
      ∃ c ∈ first :: others, c.address = t.to_ ∧
        (parseTraceParams coder traces contracts).traces[pre.length]? =
          some (parseTraceParams.tryCatch coder c t).1 ∧
        (parseTraceParams.tryCatch coder c t).1.proxy = t.proxy ∧
        ∀ tx, c.interface.parseTransaction (t.inputs.getD "") = .ok tx →
          (parseTraceParams.tryCatch coder c t).1.funcName = some tx.name) ∧
    ((∀ c ∈ first :: others, c.address ≠ t.to_) →
      (parseTraceParams coder traces contracts).traces[pre.length]? =
        some (parseTraceParams.tryCatch coder first { t with proxy := some true }).1 ∧
      (parseTraceParams.tryCatch coder first { t with proxy := some true }).1.proxy = some true ∧
      ∀ tx, first.interface.parseTransaction (t.inputs.getD "") = .ok tx →
        (parseTraceParams.tryCatch coder first { t with proxy := some true }).1.funcName =
          some tx.name) := by
  have hreach : (parseTraceParams coder traces contracts).traces[pre.length]? =
      some (parseTraceParams.body coder contracts (mapFunctionSelectors2Contracts contracts)
        t).trace := by
    unfold parseTraceParams
    rw [hflat]
    exact parseTraceParams.loop_reached coder contracts _ pre t post hpre
  rw [parseTraceParams.body_call coder contracts _ t first others hcall htype hcands] at hreach
  constructor
  · intro hex
    cases hfind : (first :: others).find? (fun contract => contract.address = t.to_) with
    | none =>
      obtain ⟨c, hc, hca⟩ := hex
      have := List.find?_eq_none.mp hfind c hc
      simp [hca] at this
    | some c =>
      have hmem := List.mem_of_find?_eq_some hfind
      have haddr : c.address = t.to_ := by
        simpa using List.find?_some hfind
      have hsel : parseTraceParams.select first others t = (c, t) := by
        simp only [parseTraceParams.select, hfind]
      rw [hsel] at hreach
      refine ⟨c, hmem, haddr, hreach, parseTraceParams.tryCatch_proxy coder c t, ?_⟩
      intro tx htx
      rw [parseTraceParams.tryCatch_fst]
      exact parseTraceParams.tryBlock_funcName coder c t tx htx
  · intro hall
    have hfind : (first :: others).find? (fun contract => contract.address = t.to_) = none := by
      rw [List.find?_eq_none]
      intro c hc
      simpa using hall c hc
    have hsel : parseTraceParams.select first others t = (first, { t with proxy := some true }) := by
      simp only [parseTraceParams.select, hfind]
    rw [hsel] at hreach
    refine ⟨hreach, ?_, ?_⟩
    · rw [parseTraceParams.tryCatch_proxy]
    · intro tx htx
      rw [parseTraceParams.tryCatch_fst]
      exact parseTraceParams.tryBlock_funcName coder first { t with proxy := some true } tx htx

/-- Example of `parseTraceParams_select`: the call of `totalSupply()` on the
token, whose own interface is the only candidate, after a frame without call
data. -/
theorem parseTraceParams_select_witness :
    ∃ c ∈ [Example.tokenEthers], c.address = Example.call.to_ ∧
      (parseTraceParams Example.coder [[Example.emptyCall, Example.call]]
          Example.contracts).traces[1]? =
        some (parseTraceParams.tryCatch Example.coder c Example.call).1 ∧
      (parseTraceParams.tryCatch Example.coder c Example.call).1.proxy = Example.call.proxy ∧
      ∀ tx, c.interface.parseTransaction (Example.call.inputs.getD "") = .ok tx →
        (parseTraceParams.tryCatch Example.coder c Example.call).1.funcName = some tx.name :=
  (parseTraceParams_select Example.coder [[Example.emptyCall, Example.call]]
    Example.contracts [Example.emptyCall] Example.call [] Example.tokenEthers [] rfl
    (by decide) (by decide) (by decide) rfl).1
    ⟨Example.tokenEthers, List.mem_singleton.mpr rfl, rfl⟩

/-- C5. Unresolvable selector: a frame that is not a creation and whose
selector has no candidate in the Selector Index is left exactly as it was by
`parseTraceParams`, wherever it stands in the trace lists; processed on its
own it is unchanged, no warning is written and no error is raised. -/
theorem parseTraceParams_no_candidate (coder : AbiCoder) (traces : List (List Trace))
    (contracts : Contracts) (i : Nat) (t : Trace)
    (hi : traces.flatten[i]? = some t) (htype : t.type ≠ MessageType.Create)
    (hcand : candidatesOf (mapFunctionSelectors2Contracts contracts) t = []) :
    (parseTraceParams coder traces contracts).traces[i]? = some t ∧
      parseTraceParams coder [[t]] contracts = ⟨[t], [], none⟩ := by
  have hbody := parseTraceParams.body_no_candidate coder contracts
    (mapFunctionSelectors2Contracts contracts) t htype hcand
  constructor
  · rcases parseTraceParams.loop_getElem? coder contracts
      (mapFunctionSelectors2Contracts contracts) traces.flatten i t hi with h | h
    · rw [hbody] at h; exact h
    · exact h
  · simp [parseTraceParams, parseTraceParams.loop, hbody]

/-- Witness of C5: a call whose selector no contract declares, after a
resolved call. -/
theorem parseTraceParams_no_candidate_witness :
    (parseTraceParams Example.coder [[Example.call, Example.unknownCall]]
        Example.contracts).traces[1]? = some Example.unknownCall ∧
      parseTraceParams Example.coder [[Example.unknownCall]] Example.contracts =
        ⟨[Example.unknownCall], [], none⟩ :=
  parseTraceParams_no_candidate Example.coder [[Example.call, Example.unknownCall]]
    Example.contracts 1 Example.unknownCall rfl (by decide) rfl

/-- C6 (code at the failing input). A creation frame with call data ends the
loop: the call of `totalSupply()` after it keeps `funcName` unset, although the
same frame processed on its own with the same contract mapping is resolved. -/
theorem parseTraceParams_create_ends_loop :
    ((parseTraceParams Example.coder [[Example.create, Example.call]]
        Example.contracts).traces.map fun t => t.funcName) = [some "constructor", none] ∧
    ((parseTraceParams Example.coder [[Example.call]]
        Example.contracts).traces.map fun t => t.funcName) = [some "totalSupply"] := by
  decide

/-- C7 (amended). Skip rule in `parseTraceParams`: every frame whose input is
absent or shorter than 10 characters (`0x` and the eight hexadecimal digits of
a 4-byte selector) is left as it was, wherever it stands in the trace lists,
even when its selector has candidates in the Selector Index; processed on its
own it is unchanged, no warning is written and no error is raised. -/
theorem parseTraceParams_skip (coder : AbiCoder) (traces : List (List Trace))
    (contracts : Contracts) (i : Nat) (t : Trace)
    (hi : traces.flatten[i]? = some t) (hshort : ∀ s, t.inputs = some s → s.length < 10) :
    (parseTraceParams coder traces contracts).traces[i]? = some t ∧
      parseTraceParams coder [[t]] contracts = ⟨[t], [], none⟩ := by
  have hbody := parseTraceParams.body_skip coder contracts
    (mapFunctionSelectors2Contracts contracts) t (hasCallData_eq_false t hshort)
  constructor
  · rcases parseTraceParams.loop_getElem? coder contracts
      (mapFunctionSelectors2Contracts contracts) traces.flatten i t hi with h | h
    · rw [hbody] at h; exact h
    · exact h
  · simp [parseTraceParams, parseTraceParams.loop, hbody]

/-- Witness of C7: a frame with input `0x`. -/
theorem parseTraceParams_skip_witness :
    (parseTraceParams Example.coder [[Example.call, Example.emptyCall]]
        Example.contracts).traces[1]? = some Example.emptyCall ∧
      parseTraceParams Example.coder [[Example.emptyCall]] Example.contracts =
        ⟨[Example.emptyCall], [], none⟩ :=
  parseTraceParams_skip Example.coder [[Example.call, Example.emptyCall]]
    Example.contracts 1 Example.emptyCall rfl (by
      intro s hs
      cases hs
      decide)

/-- Counterexample to C7 as stated: the call of `totalSupply()` carries 4
bytes of call data (input `0x18160ddd`, 10 characters), fewer than the 36
bytes of a selector and one encoded word (74 characters), and it is parsed:
its `funcName` is set. -/
theorem parseTraceParams_skip_counterexample :
    (∃ s, Example.call.inputs = some s ∧ s.length < 2 + 2 * (4 + 32)) ∧
    Example.call.funcName = none ∧
    ((parseTraceParams Example.coder [[Example.call]]
        Example.contracts).traces.map fun t => t.funcName) = [some "totalSupply"] := by
  refine ⟨⟨"0x18160ddd", rfl, by decide⟩, rfl, by decide⟩

/-- A creation frame with call data goes to the Constructor Resolver and ends
the loop. -/
theorem parseTraceParams.body_create (coder : AbiCoder) (contracts : Contracts)
    (index : SelectorIndex) (t : Trace)
    (hcall : hasCallData t = true) (htype : t.type = MessageType.Create) :
    parseTraceParams.body coder contracts index t =
      match (addConstructorParamsToTrace coder { t with funcName := some "constructor" }
          contracts).2 with
      | none => ⟨(addConstructorParamsToTrace coder { t with funcName := some "constructor" }
          contracts).1, [], .returned⟩
      | some e => ⟨(addConstructorParamsToTrace coder { t with funcName := some "constructor" }
          contracts).1, [], .raised e⟩ := by
  unfold parseTraceParams.body
  rw [if_pos hcall, if_pos htype]

theorem addConstructorParamsToTrace_no_constructor (coder : AbiCoder) (t : Trace)
    (contracts : Contracts)
    (h : ((constructorOf contracts t.to_).bind fun constructor => constructor.inputs) = none) :
    addConstructorParamsToTrace coder t contracts = (t, none) := by
  unfold addConstructorParamsToTrace
  rw [h]

theorem addConstructorParamsToTrace_no_suffix (coder : AbiCoder) (t : Trace)
    (contracts : Contracts) (inputs : List ParamType)
    (h : ((constructorOf contracts t.to_).bind fun constructor => constructor.inputs) =
      some inputs)
    (hsuffix : ∀ s, ((contracts.get? t.to_).bind fun c => c.constructorInputs) = some s →
      s.length = 0) :
    addConstructorParamsToTrace coder t contracts =
      ({ t with parsedConstructorParams := some true }, none) := by
  unfold addConstructorParamsToTrace
  rw [h]
  dsimp only
  cases hs : ((contracts.get? t.to_).bind fun c => c.constructorInputs) with
  | none => rfl
  | some s =>
    have := hsuffix s hs
    simp [this]

/-- The error raised out of the loop is the one raised at the frame the loop
reaches after a prefix without creation frames with call data. -/
theorem parseTraceParams.loop_raised (coder : AbiCoder) (contracts : Contracts)
    (index : SelectorIndex) (pre : List Trace) (t : Trace) (post : List Trace)
    (hpre : ∀ u ∈ pre, ¬ (hasCallData u = true ∧ u.type = MessageType.Create))
    (hret : (parseTraceParams.body coder contracts index t).completion = .returned) :
    (parseTraceParams.loop coder contracts index (pre ++ t :: post)).raised = none := by
  rw [parseTraceParams.loop_append coder contracts index pre (t :: post) hpre]
  simp only [parseTraceParams.loop, hret]

/-- C8. Non-fatal decode failure for call frames: for every trace list that
contains no creation frame, `parseTraceParams` raises nothing and processes
every frame of the flattened list in order (the frames and the warnings after
the pass are those of the loop body applied to each frame). For a frame with
call data whose selector has candidates, no warning is written when the `try`
block (the interface's parse, the input decoding and the output decoding)
raises nothing; when it raises an error, whatever its message, exactly one
warning is written if the message does not contain "no matching function" and
none if it does. -/
theorem parseTraceParams_no_create (coder : AbiCoder) (traces : List (List Trace))
    (contracts : Contracts)
    (hcreate : ∀ t ∈ traces.flatten, t.type ≠ MessageType.Create) :
    (parseTraceParams coder traces contracts).raised = none ∧
    (parseTraceParams coder traces contracts).traces =
      traces.flatten.map (fun t =>
        (parseTraceParams.body coder contracts (mapFunctionSelectors2Contracts contracts)
          t).trace) ∧
    (parseTraceParams coder traces contracts).warnings =
      (traces.flatten.map fun t =>
        (parseTraceParams.body coder contracts (mapFunctionSelectors2Contracts contracts)
          t).warnings).flatten ∧
    ∀ t ∈ traces.flatten, ∀ first others, hasCallData t = true →
      candidatesOf (mapFunctionSelectors2Contracts contracts) t = first :: others →
      ((parseTraceParams.tryBlock coder (parseTraceParams.select first others t).1
          (parseTraceParams.select first others t).2).2 = none →
        (parseTraceParams.body coder contracts (mapFunctionSelectors2Contracts contracts)
          t).warnings = []) ∧
      ∀ err, (parseTraceParams.tryBlock coder (parseTraceParams.select first others t).1
          (parseTraceParams.select first others t).2).2 = some err →
        ("no matching function".data <:+: err.data →
          (parseTraceParams.body coder contracts (mapFunctionSelectors2Contracts contracts)
            t).warnings = []) ∧
        (¬ "no matching function".data <:+: err.data →
          (parseTraceParams.body coder contracts (mapFunctionSelectors2Contracts contracts)
            t).warnings =
            [parseTraceParams.warning
              (parseTraceParams.tryBlock coder (parseTraceParams.select first others t).1
                (parseTraceParams.select first others t).2).1 err]) := by
  have hpre : ∀ u ∈ traces.flatten, ¬ (hasCallData u = true ∧ u.type = MessageType.Create) :=
    fun u hu h => hcreate u hu h.2
  have hloop := parseTraceParams.loop_append coder contracts
    (mapFunctionSelectors2Contracts contracts) traces.flatten [] hpre
  rw [List.append_nil] at hloop
  refine ⟨?_, ?_, ?_, ?_⟩
  · simp [parseTraceParams, hloop, parseTraceParams.loop]
  · simp [parseTraceParams, hloop, parseTraceParams.loop]
  · simp [parseTraceParams, hloop, parseTraceParams.loop]
  · intro t ht first others hcall hcands
    rw [parseTraceParams.body_call coder contracts _ t first others hcall (hcreate t ht) hcands]
    simp only [parseTraceParams.tryCatch]
    refine ⟨fun hnone => by rw [hnone], ?_⟩
    intro err herr
    rw [herr]
    simp only [jsMatch]
    constructor
    · intro hin
      simp [hin]
    · intro hnot
      simp [hnot]

/-- Witness of C8: three call frames and no creation frame. The interface
selected for the first raises "data out-of-bounds", the interface selected for
the second (a proxy call) raises "no matching function", and the third is
resolved. The pass raises nothing, the frame after the two failures is
processed, and exactly one warning is written, for the first frame. -/
theorem parseTraceParams_no_create_witness :
    (parseTraceParams Example.coder
        [[Example.brokenCall, Example.proxyCall, Example.call]]
        Example.failingContracts).raised = none ∧
    ((parseTraceParams Example.coder
        [[Example.brokenCall, Example.proxyCall, Example.call]]
        Example.failingContracts).traces.map fun t => (t.funcName, t.proxy)) =
      [(none, none), (none, some true), (some "totalSupply", none)] ∧
    (parseTraceParams Example.coder
        [[Example.brokenCall, Example.proxyCall, Example.call]]
        Example.failingContracts).warnings =
      ["Failed to parse selector 0x0badc0de in trace with id 8 from 0xuser to 0xbroken: " ++
        "data out-of-bounds"] := by
  obtain ⟨h1, h2, h3, _⟩ := parseTraceParams_no_create Example.coder
    [[Example.brokenCall, Example.proxyCall, Example.call]] Example.failingContracts
    (by decide)
  refine ⟨h1, ?_, ?_⟩
  · rw [h2]
    decide
  · rw [h3]
    decide

/-- Constructor Resolver flags for a creation frame with call data that the
loop reaches (no creation frame with call data comes before it): `funcName`
becomes "constructor" and, if the target contract has no constructor
declaration available, nothing else changes; if a constructor declaration is
available but the contract's `constructorInputs` is absent or empty,
`parsedConstructorParams` is set to true and the input parameter list is
unchanged. No error is raised in either case. -/
theorem addConstructorParamsToTrace_flags (coder : AbiCoder) (traces : List (List Trace))
    (contracts : Contracts) (pre : List Trace) (t : Trace) (post : List Trace)
    (hflat : traces.flatten = pre ++ t :: post)
    (hpre : ∀ u ∈ pre, ¬ (hasCallData u = true ∧ u.type = MessageType.Create))
    (hcall : hasCallData t = true) (htype : t.type = MessageType.Create) :
    (((constructorOf contracts t.to_).bind fun constructor => constructor.inputs) = none →
      (parseTraceParams coder traces contracts).traces[pre.length]? =
        some { t with funcName := some "constructor" } ∧
      (parseTraceParams coder traces contracts).raised = none) ∧
    (∀ inputs,
      ((constructorOf contracts t.to_).bind fun constructor => constructor.inputs) =
        some inputs →
      (∀ s, ((contracts.get? t.to_).bind fun c => c.constructorInputs) = some s →
        s.length = 0) →
      (parseTraceParams coder traces contracts).traces[pre.length]? =
        some { t with funcName := some "constructor", parsedConstructorParams := some true } ∧
      (parseTraceParams coder traces contracts).raised = none) := by
  have hreach : (parseTraceParams coder traces contracts).traces[pre.length]? =
      some (parseTraceParams.body coder contracts (mapFunctionSelectors2Contracts contracts)
        t).trace := by
    unfold parseTraceParams
    rw [hflat]
    exact parseTraceParams.loop_reached coder contracts _ pre t post hpre
  have hbody := parseTraceParams.body_create coder contracts
    (mapFunctionSelectors2Contracts contracts) t hcall htype
  constructor
  · intro hnone
    have hadd := addConstructorParamsToTrace_no_constructor coder
      { t with funcName := some "constructor" } contracts hnone
    rw [hadd] at hbody
    refine ⟨by rw [hreach, hbody], ?_⟩
    unfold parseTraceParams
    rw [hflat]
    exact parseTraceParams.loop_raised coder contracts _ pre t post hpre (by rw [hbody])
  · intro inputs hsome hsuffix
    have hadd := addConstructorParamsToTrace_no_suffix coder
      { t with funcName := some "constructor" } contracts inputs hsome hsuffix
    rw [hadd] at hbody
    refine ⟨by rw [hreach, hbody], ?_⟩
    unfold parseTraceParams
    rw [hflat]
    exact parseTraceParams.loop_raised coder contracts _ pre t post hpre (by rw [hbody])

/-- Example of `addConstructorParamsToTrace_flags`: the creation of the vault,
whose constructor is declared and whose `constructorInputs` is absent, after a
resolved call. -/
theorem addConstructorParamsToTrace_flags_witness :
    (parseTraceParams Example.coder [[Example.call, Example.createVault]]
        Example.contracts).traces[1]? =
      some { Example.createVault with
        funcName := some "constructor", parsedConstructorParams := some true } ∧
    (parseTraceParams Example.coder [[Example.call, Example.createVault]]
        Example.contracts).raised = none :=
  (addConstructorParamsToTrace_flags Example.coder [[Example.call, Example.createVault]]
    Example.contracts [Example.call] Example.createVault [] rfl (by decide) (by decide)
    rfl).2 [Example.uintA] rfl (by
      intro s hs
      cases hs)

/-! ## Decoding of logs: theorems -/

/-- C10 (code at the failing input). `parseEvent` hands the declared input,
not the decoded argument, to `addValuesToComponents` as the value. For the
event `Deposit(uint256[] amounts)` with argument `[1, 2]` the call raises
(`map` is not a function of the descriptor object) and `parseTransactionLogs`
appends no record to the token; for the event `Paid(tuple(uint256 a, address
b) pair)` with argument `(7, 0x1111)` the record is appended, but the
components of its node carry `undefined` as values, while the Parameter
Decoder applied to the input and the decoded argument yields the components
with the values 7 and 0x1111. -/
theorem parseTransactionLogs_event_components :
    parseEvent ⟨"0xtoken", some Example.tokenEthers, none, none, []⟩
        ⟨"Deposit", Example.depositEvent, [Example.amountsValue]⟩ =
      .error "TypeError: args.map is not a function" ∧
    ((parseTransactionLogs [Example.depositLog] Example.contracts).get? "0xtoken").map
        (fun c => c.events.length) = some 0 ∧
    ((parseTransactionLogs [Example.paidLog] Example.contracts).get? "0xtoken").map
        (fun c => c.events.map fun e => (e.name, e.params)) =
      some [("Paid", [ParamNode.mk "pair" "tuple" Example.pairValue
        (some [ParamNode.mk "a" "uint256" .undefined none,
               ParamNode.mk "b" "address" .undefined none])])] ∧
    addValuesToComponents Example.pair Example.pairValue =
      .ok (some [ParamNode.mk "a" "uint256" (.num 7) none,
                 ParamNode.mk "b" "address" (.str "0x1111") none]) :=
  ⟨rfl, rfl, rfl, rfl⟩

/-! ## Decoding of logs: skipping and order -/

theorem Contracts.get?_map_update (f : Contract → Contract) (a b : String)
    (contracts : Contracts) :
    Contracts.get? (contracts.map fun entry => if entry.1 = a then (entry.1, f entry.2) else entry)
        b =
      (contracts.get? b).map fun c => if b = a then f c else c := by
  induction contracts with
  | nil => simp [Contracts.get?]
  | cons entry rest ih =>
    obtain ⟨k, c⟩ := entry
    rw [List.map_cons]
    by_cases hka : k = a
    · simp only [hka, if_true]
      by_cases hab : a = b
      · subst hab; simp [Contracts.get?]
      · have hba : ¬ b = a := fun h => hab h.symm
        simp only [Contracts.get?, hab, if_false, hba] at ih ⊢
        rw [← hka]
        rw [← hka] at ih
        exact ih
    · simp only [hka, if_false]
      by_cases hkb : k = b
      · have hba : ¬ b = a := fun h => hka (hkb.trans h)
        simp [Contracts.get?, hkb, hba]
      · simp only [Contracts.get?, hkb, if_false]
        exact ih

theorem Contracts.get?_pushEvent (contracts : Contracts) (a b : String) (e : Event) :
    (contracts.pushEvent a e).get? b =
      (contracts.get? b).map fun c =>
        if b = a then { c with events := c.events ++ [e] } else c :=
  Contracts.get?_map_update (fun c => { c with events := c.events ++ [e] }) a b contracts

/-- The loop body appends the record of the log, if there is one, under the
lower-cased address and changes nothing else. -/
theorem parseTransactionLogs.body_eq (contracts : Contracts) (log : Log) :
    parseTransactionLogs.body contracts log =
      match parseTransactionLogs.record contracts log with
      | none => contracts
      | some record => contracts.pushEvent (toLowerCase log.address) record := by
  unfold parseTransactionLogs.body parseTransactionLogs.record
  cases hg : contracts.get? (toLowerCase log.address) with
  | none => rfl
  | some c =>
    cases hc : c.ethersContract with
    | none => simp [hc]
    | some ec =>
      cases hp : ec.interface.parseLog log with
      | error _ => simp [hc, hp]
      | ok ev =>
        cases he : parseEvent c ev <;> simp [hc, hp, he]

/-- Appending an event to a contract does not change which record a log
yields. -/
theorem parseTransactionLogs.record_pushEvent (contracts : Contracts) (a : String) (e : Event)
    (log : Log) :
    parseTransactionLogs.record (contracts.pushEvent a e) log =
      parseTransactionLogs.record contracts log := by
  unfold parseTransactionLogs.record
  rw [Contracts.get?_pushEvent]
  cases hg : contracts.get? (toLowerCase log.address) with
  | none => rfl
  | some c =>
    by_cases h : toLowerCase log.address = a
    · simp only [Option.map_some', h, if_true]
      cases hc : c.ethersContract with
      | none => rfl
      | some ec =>
        cases hp : ec.interface.parseLog log with
        | error _ => rfl
        | ok ev => rfl
    · simp only [Option.map_some', h, if_false]

/-- The event list of every address after the pass: the list before it
followed by the records of the logs with that lower-cased address, in the order
of the logs. -/
theorem parseTransactionLogs.events_eq (logs : List Log) (contracts : Contracts) (a : String) :
    ((parseTransactionLogs logs contracts).get? a).map (fun c => c.events) =
      (contracts.get? a).map fun c =>
        c.events ++ (logs.filter fun log => toLowerCase log.address = a).filterMap
          (parseTransactionLogs.record contracts) := by
  unfold parseTransactionLogs
  induction logs generalizing contracts with
  | nil => simp
  | cons log rest ih =>
    rw [List.foldl_cons, ih, parseTransactionLogs.body_eq]
    cases hr : parseTransactionLogs.record contracts log with
    | none =>
      simp only []
      cases contracts.get? a with
      | none => rfl
      | some c =>
        by_cases h : toLowerCase log.address = a
        · simp [List.filter_cons, h, hr]
        · simp [List.filter_cons, h]
    | some record =>
      simp only []
      have hrec : parseTransactionLogs.record
          (contracts.pushEvent (toLowerCase log.address) record) =
          parseTransactionLogs.record contracts := by
        funext l
        exact parseTransactionLogs.record_pushEvent _ _ _ _
      rw [hrec, Contracts.get?_pushEvent]
      cases contracts.get? a with
      | none => rfl
      | some c =>
        by_cases h : toLowerCase log.address = a
        · subst h
          simp [List.filter_cons, hr]
        · have h2 : ¬ a = toLowerCase log.address := fun e => h e.symm
          simp [List.filter_cons, h, h2]

/-- C11. Log Decoder skipping: `parseTransactionLogs` always returns (every
error raised inside its `try` block is caught, and nothing outside it raises
for logs that carry an address). A log whose lower-cased address maps to no
contract, to a contract without an interface, or whose topics match no
declared event (the interface's `parseLog` raises) yields no record; and the
event list of every contract after the pass is its list before the pass
followed by the records of the logs with its address, in the order of the
logs, so a log that yields no record appends nothing to any contract. -/
theorem parseTransactionLogs_skips (logs : List Log) (contracts : Contracts) :
    (∀ log, contracts.get? (toLowerCase log.address) = none →
      parseTransactionLogs.record contracts log = none) ∧
    (∀ log contract, contracts.get? (toLowerCase log.address) = some contract →
      contract.ethersContract = none →
      parseTransactionLogs.record contracts log = none) ∧
    (∀ log contract ethersContract e,
      contracts.get? (toLowerCase log.address) = some contract →
      contract.ethersContract = some ethersContract →
      ethersContract.interface.parseLog log = .error e →
      parseTransactionLogs.record contracts log = none) ∧
    (∀ a, ((parseTransactionLogs logs contracts).get? a).map (fun c => c.events) =
      (contracts.get? a).map fun c =>
        c.events ++ (logs.filter fun log => toLowerCase log.address = a).filterMap
          (parseTransactionLogs.record contracts)) ∧
    ((∀ log ∈ logs, parseTransactionLogs.record contracts log = none) →
      parseTransactionLogs logs contracts = contracts) := by
  refine ⟨?_, ?_, ?_, fun a => parseTransactionLogs.events_eq logs contracts a, ?_⟩
  · intro log h
    simp [parseTransactionLogs.record, h]
  · intro log c h hc
    simp [parseTransactionLogs.record, h, hc]
  · intro log c ec e h hc he
    simp [parseTransactionLogs.record, h, hc, he]
  · intro hall
    unfold parseTransactionLogs
    induction logs with
    | nil => rfl
    | cons log rest ih =>
      rw [List.foldl_cons, parseTransactionLogs.body_eq, hall log (List.mem_cons_self _ _)]
      exact ih (fun l hl => hall l (List.mem_cons_of_mem _ hl))

/-! ## Parameter decoder: nested arrays -/

theorem sliceLast2_append (s : String) : sliceLast2 (s ++ "[]") = "[]" := by
  cases s with
  | mk cs =>
    show String.mk _ = _
    congr 1
    simp [String.data_append]

theorem childBaseType_append (s : String) : childBaseType (s ++ "[]") = "array" := by
  unfold childBaseType
  rw [sliceLast2_append]
  rfl

theorem childBaseType_base (base : String) (h : sliceLast2 base ≠ "[]") :
    childBaseType base = base := by
  unfold childBaseType
  rw [if_neg h]

/-- The child descriptor of an array descriptor whose type is `base` followed
by `k + 1` pairs `[]`. -/
theorem ParamType.child_arrayType (paramType : ParamType) (base : String) (k : Nat)
    (htype : paramType.type = arrayType base (k + 1)) (hnot : sliceLast2 base ≠ "[]") :
    paramType.child = .mk paramType.name (arrayType base k)
      (if k = 0 then base else "array") paramType.components := by
  unfold ParamType.child
  rw [htype]
  show ParamType.mk _ (sliceDropLast2 (arrayType base k ++ "[]"))
    (childBaseType (sliceDropLast2 (arrayType base k ++ "[]"))) _ = _
  rw [sliceDropLast2_append]
  cases k with
  | zero =>
    show ParamType.mk _ base (childBaseType base) _ = _
    rw [childBaseType_base base hnot]
    rfl
  | succ k =>
    show ParamType.mk _ _ (childBaseType (arrayType base k ++ "[]")) _ = _
    rw [childBaseType_append]
    rfl

/-- C12 (amended). Multi-dimensional arrays: for every descriptor of base
category "array" whose type string is a base type (not ending in `[]`)
followed by k >= 1 trailing `[]` pairs, and every raw value nested k sequence
levels deep each of whose innermost elements decodes without error against
the parent's descriptor with the base type as type and as base category,
`addValuesToComponents` returns and strips exactly k times:
the result has exactly k nested levels of index-named nodes, the nodes at
level i have the type string with k-i trailing `[]` pairs, and the nodes at
level k have the base type as type and are decoded with the base type (not
"array") as base category. -/
theorem addValuesToComponents_nested (k : Nat) (paramType : ParamType) (base : String)
    (v : Value)
    (hbase : paramType.baseType = "array") (htype : paramType.type = arrayType base (k + 1))
    (hnot : sliceLast2 base ≠ "[]")
    (hval : NestedValue (addValuesToComponents (paramType.element base)) (k + 1) v) :
    ∃ nodes, addValuesToComponents paramType v = .ok (some nodes) ∧
      NestedLevels (addValuesToComponents (paramType.element base)) base (k + 1) v nodes := by
  induction k generalizing paramType v with
  | zero =>
    obtain ⟨rows, hv, hrows⟩ := hval
    subst hv
    have hchild := ParamType.child_arrayType paramType base 0 htype hnot
    have hchild2 : paramType.child = paramType.element base := hchild
    obtain ⟨nodes, hn, hlen, hget⟩ := arrayRows_ok
      (fun v => tupleComponents paramType.components v) (sliceDropLast2 paramType.type) rows 0
      (by
        intro r row hr
        rw [arrayLevels_child, hchild2]
        exact hrows row (List.getElem?_mem hr))
    refine ⟨nodes, ?_, rows, rfl, hlen, ?_⟩
    · rw [addValuesToComponents_of_array _ _ hbase]
      simp [hn, Except.map]
    · intro r row hr
      obtain ⟨c, hc, hnode⟩ := hget r row hr
      rw [arrayLevels_child, hchild2] at hc
      refine ⟨c, ?_, by simpa using hc⟩
      rw [hnode, htype]
      show some (ParamNode.mk _ (sliceDropLast2 (base ++ "[]")) _ _) = _
      rw [sliceDropLast2_append]
      simp [arrayType]
  | succ k ih =>
    obtain ⟨rows, hv, hrows⟩ := hval
    subst hv
    have hchild := ParamType.child_arrayType paramType base (k + 1) htype hnot
    simp only [Nat.add_one_ne_zero, if_false] at hchild
    have helem : paramType.child.element base = paramType.element base := by
      rw [hchild]
      rfl
    have hrow : ∀ row ∈ rows, ∃ sub,
        addValuesToComponents paramType.child row = .ok (some sub) ∧
        NestedLevels (addValuesToComponents (paramType.element base)) base (k + 1) row sub := by
      intro row hmem
      have := ih paramType.child row (by rw [hchild]; rfl) (by rw [hchild]; rfl)
        (by rw [helem]; exact hrows row hmem)
      rw [helem] at this
      exact this
    obtain ⟨nodes, hn, hlen, hget⟩ := arrayRows_ok
      (fun v => tupleComponents paramType.components v) (sliceDropLast2 paramType.type) rows 0
      (by
        intro r row hr
        rw [arrayLevels_child]
        obtain ⟨sub, hsub, _⟩ := hrow row (List.getElem?_mem hr)
        exact ⟨some sub, hsub⟩)
    refine ⟨nodes, ?_, rows, rfl, hlen, ?_⟩
    · rw [addValuesToComponents_of_array _ _ hbase]
      simp [hn, Except.map]
    · intro r row hr
      obtain ⟨c, hc, hnode⟩ := hget r row hr
      rw [arrayLevels_child] at hc
      obtain ⟨sub, hsub, hlevels⟩ := hrow row (List.getElem?_mem hr)
      rw [hsub] at hc
      cases hc
      refine ⟨some sub, ?_, ?_⟩
      · rw [hnode, htype]
        show some (ParamNode.mk _ (sliceDropLast2 (arrayType base (k + 1) ++ "[]")) _ _) = _
        rw [sliceDropLast2_append]
        simp
      · rw [if_neg (Nat.add_one_ne_zero k)]
        exact ⟨sub, rfl, hlevels⟩

/-- Witness of C12: the descriptor `uint256[][] grid` (base type `uint256`,
two pairs) and the value `[[1, 2], [3]]`. -/
theorem addValuesToComponents_nested_witness :
    ∃ nodes, addValuesToComponents Example.grid Example.gridValue = .ok (some nodes) ∧
      NestedLevels (addValuesToComponents (Example.grid.element "uint256")) "uint256" 2
        Example.gridValue nodes :=
  addValuesToComponents_nested 1 Example.grid "uint256" Example.gridValue rfl rfl (by decide)
    ⟨_, rfl, by
      intro row hrow
      simp only [List.mem_cons, List.mem_singleton, List.not_mem_nil, or_false] at hrow
      rcases hrow with rfl | rfl
      · refine ⟨_, rfl, ?_⟩
        intro leaf hleaf
        simp only [List.mem_cons, List.mem_singleton, List.not_mem_nil, or_false] at hleaf
        rcases hleaf with rfl | rfl <;> exact ⟨_, rfl⟩
      · refine ⟨_, rfl, ?_⟩
        intro leaf hleaf
        simp only [List.mem_singleton] at hleaf
        subst hleaf
        exact ⟨_, rfl⟩⟩

/-- Counterexample to C12 as stated (for every raw value nested k levels
deep): the descriptor `tuple(tuple(uint256 a, address b) pair)[] outers` has
base category "array" and its type is the base type `tuple` followed by one
pair `[]`; the raw value `[[]]` is nested one sequence level deep, yet the call
raises: the element `[]` is decoded as a tuple, its field 0 is `undefined`, and
reading field 0 of `undefined` for the inner tuple is a `TypeError`. -/
theorem addValuesToComponents_nested_raises :
    Example.outers.baseType = "array" ∧
    Example.outers.type = arrayType "tuple" 1 ∧
    sliceLast2 "tuple" ≠ "[]" ∧
    addValuesToComponents Example.outers (.seq [.seq []]) =
      .error "TypeError: Cannot read properties of undefined" ∧
    ¬ ∃ nodes, addValuesToComponents Example.outers (.seq [.seq []]) = .ok (some nodes) := by
  refine ⟨rfl, by decide, by decide, rfl, ?_⟩
  rintro ⟨nodes, h⟩
  have h2 : addValuesToComponents Example.outers (.seq [.seq []]) =
      .error "TypeError: Cannot read properties of undefined" := rfl
  rw [h2] at h
  cases h

/-! ## Decoding of call frames: inputs and outputs of a resolved frame -/

/-- The shared `forEach` callback pushes one node per value when every value
has a declared parameter and decodes against it. -/
theorem pushParams_ok (fs : List ParamType) (values : List Value) (i0 : Nat)
    (params : List ParamNode)
    (h : ∀ (j : Nat) (v : Value), values[j]? = some v →
      ∃ f c, fs[i0 + j]? = some f ∧ addValuesToComponents f v = .ok c) :
    ∃ nodes, pushParams (some fs) values i0 params = (params ++ nodes, none) ∧
      nodes.length = values.length ∧
      ∀ (j : Nat) (v : Value), values[j]? = some v →
        ∃ f c, fs[i0 + j]? = some f ∧ addValuesToComponents f v = .ok c ∧
          nodes[j]? = some (ParamNode.mk f.name f.type v c) := by
  induction values generalizing i0 params with
  | nil => exact ⟨[], by simp [pushParams], rfl, by simp⟩
  | cons v rest ih =>
    obtain ⟨f, c, hf, hc⟩ := h 0 v (by simp)
    simp only [Nat.add_zero] at hf
    obtain ⟨nodes, hn, hlen, hget⟩ := ih (i0 + 1)
      (params ++ [ParamNode.mk f.name f.type v c]) (fun j x hx => by
        have := h (j + 1) x (by simpa using hx)
        rwa [show i0 + (j + 1) = i0 + 1 + j by omega] at this)
    refine ⟨ParamNode.mk f.name f.type v c :: nodes, ?_, by simp [hlen], ?_⟩
    · simp only [pushParams, hf, hc, hn]
      simp
    · intro j x hx
      cases j with
      | zero =>
        simp at hx; subst hx
        exact ⟨f, c, hf, hc, by simp⟩
      | succ j =>
        obtain ⟨f2, c2, hf2, hc2, hg⟩ := hget j x (by simpa using hx)
        refine ⟨f2, c2, ?_, hc2, by simpa using hg⟩
        rwa [show i0 + (j + 1) = i0 + 1 + j by omega]

/-- When the shared `forEach` callback raises nothing, every value had a
declared parameter and decoded against it. -/
theorem pushParams_of_none (fragments : Option (List ParamType)) (values : List Value)
    (i0 : Nat) (params : List ParamNode)
    (h : (pushParams fragments values i0 params).2 = none) (hne : values ≠ []) :
    ∃ fs, fragments = some fs ∧ ∀ (j : Nat) (v : Value), values[j]? = some v →
      ∃ f c, fs[i0 + j]? = some f ∧ addValuesToComponents f v = .ok c := by
  induction values generalizing i0 params with
  | nil => exact absurd rfl hne
  | cons v rest ih =>
    cases fragments with
    | none => simp [pushParams] at h
    | some fs =>
      refine ⟨fs, rfl, ?_⟩
      cases hf : fs[i0]? with
      | none => simp [pushParams, hf] at h
      | some f =>
        cases hc : addValuesToComponents f v with
        | error e => simp [pushParams, hf, hc] at h
        | ok c =>
          simp only [pushParams, hf, hc] at h
          intro j x hx
          cases j with
          | zero =>
            simp at hx; subst hx
            exact ⟨f, c, by simpa using hf, hc⟩
          | succ j =>
            have hx2 : rest[j]? = some x := by simpa using hx
            have hne2 : rest ≠ [] := by
              intro e; rw [e] at hx2; simp at hx2
            obtain ⟨fs2, hfs2, hall⟩ := ih (i0 + 1) _ h hne2
            cases hfs2
            have := hall j x hx2
            rwa [show i0 + 1 + j = i0 + (j + 1) by omega] at this

/-- Selection changes at most the proxy flag of the frame. -/
theorem parseTraceParams.select_snd (first : EthersContract) (others : List EthersContract)
    (t : Trace) :
    ∃ p, (parseTraceParams.select first others t).2 = { t with proxy := p } := by
  unfold parseTraceParams.select
  split
  · exact ⟨t.proxy, rfl⟩
  · exact ⟨some true, rfl⟩

/-- The `try` block after a successful parse: `funcName` is set, the inputs
are pushed, and the outputs are decoded unless pushing the inputs raised. -/
theorem parseTraceParams.tryBlock_of_parse (coder : AbiCoder) (c : EthersContract) (u : Trace)
    (tx : TransactionDescription)
    (hparse : c.interface.parseTransaction (u.inputs.getD "") = .ok tx) :
    parseTraceParams.tryBlock coder c u =
      match (pushParams tx.functionFragment.inputs tx.args 0 u.inputParams).2 with
      | some e =>
        ({ u with funcName := some tx.name,
                  inputParams :=
                    (pushParams tx.functionFragment.inputs tx.args 0 u.inputParams).1 }, some e)
      | none =>
        addOutputParamsToTrace coder
          { u with funcName := some tx.name,
                   inputParams :=
                     (pushParams tx.functionFragment.inputs tx.args 0 u.inputParams).1 } tx := by
  unfold parseTraceParams.tryBlock
  rw [hparse]
  rfl

/-- Inputs of a resolved call frame that the loop reaches: for a frame that is
not a creation, has call data and whose selector has candidates, if the
selected interface parses the call data into a function description with name
f, declared inputs in_0..in_{n-1} and arguments a_0..a_{n-1}, and the
Parameter Decoder returns on every pair of in_i and a_i, then `funcName` is f
and exactly n input nodes are appended in order, the i-th having the name and
type of in_i, value a_i and the components of the Parameter Decoder on in_i and
a_i. -/
theorem parseTraceParams_inputs (coder : AbiCoder) (traces : List (List Trace))
    (contracts : Contracts) (pre : List Trace) (t : Trace) (post : List Trace)
    (first : EthersContract) (others : List EthersContract) (tx : TransactionDescription)
    (ins : List ParamType)
    (hflat : traces.flatten = pre ++ t :: post)
    (hpre : ∀ u ∈ pre, ¬ (hasCallData u = true ∧ u.type = MessageType.Create))
    (hcall : hasCallData t = true) (htype : t.type ≠ MessageType.Create)
    (hcands : candidatesOf (mapFunctionSelectors2Contracts contracts) t = first :: others)
    (hparse : (parseTraceParams.select first others t).1.interface.parseTransaction
      (t.inputs.getD "") = .ok tx)
    (hins : tx.functionFragment.inputs = some ins) (hlen : tx.args.length = ins.length)
    (hdec : ∀ (i : Nat) (input : ParamType) (arg : Value),
      ins[i]? = some input → tx.args[i]? = some arg →
      ∃ c, addValuesToComponents input arg = .ok c) :
    ∃ out nodes,
      (parseTraceParams coder traces contracts).traces[pre.length]? = some out ∧
      out.funcName = some tx.name ∧
      out.inputParams = t.inputParams ++ nodes ∧
      nodes.length = ins.length ∧
      ∀ (i : Nat) (input : ParamType) (arg : Value),
        ins[i]? = some input → tx.args[i]? = some arg →
        ∃ c, addValuesToComponents input arg = .ok c ∧
          nodes[i]? = some (ParamNode.mk input.name input.type arg c) := by
  have hreach : (parseTraceParams coder traces contracts).traces[pre.length]? =
      some (parseTraceParams.body coder contracts (mapFunctionSelectors2Contracts contracts)
        t).trace := by
    unfold parseTraceParams
    rw [hflat]
    exact parseTraceParams.loop_reached coder contracts _ pre t post hpre
  rw [parseTraceParams.body_call coder contracts _ t first others hcall htype hcands] at hreach
  simp only [parseTraceParams.tryCatch_fst] at hreach
  obtain ⟨p, hsel⟩ := parseTraceParams.select_snd first others t
  rw [hsel] at hreach
  have hparse2 : (parseTraceParams.select first others t).1.interface.parseTransaction
      (({ t with proxy := p } : Trace).inputs.getD "") = .ok tx := hparse
  have hall : ∀ (j : Nat) (v : Value), tx.args[j]? = some v →
      ∃ f c, ins[0 + j]? = some f ∧ addValuesToComponents f v = .ok c := by
    intro j v hv
    have hj : j < ins.length := by
      rw [← hlen]
      exact (List.getElem?_eq_some_iff.mp hv).1
    obtain ⟨c, hc⟩ := hdec j ins[j] v (List.getElem?_eq_getElem hj) hv
    exact ⟨ins[j], c, by simp [List.getElem?_eq_getElem hj], hc⟩
  obtain ⟨nodes, hn, hnlen, hget⟩ := pushParams_ok ins tx.args 0 t.inputParams hall
  rw [parseTraceParams.tryBlock_of_parse coder _ _ tx hparse2] at hreach
  simp only [hins] at hreach
  have hn2 : pushParams (some ins) tx.args 0 ({ t with proxy := p } : Trace).inputParams =
      (t.inputParams ++ nodes, none) := hn
  rw [hn2] at hreach
  simp only [] at hreach
  obtain ⟨outs, hout⟩ := addOutputParamsToTrace_fst coder
    { t with proxy := p, funcName := some tx.name, inputParams := t.inputParams ++ nodes } tx
  rw [hout] at hreach
  refine ⟨_, nodes, hreach, rfl, rfl, by rw [hnlen, hlen], ?_⟩
  intro i input arg hi ha
  obtain ⟨f, c, hf, hc, hnode⟩ := hget i arg ha
  simp only [Nat.zero_add] at hf
  rw [hi] at hf
  cases hf
  exact ⟨c, hc, hnode⟩

/-- When the shared `forEach` callback raises nothing, it has pushed one node
per value, each decoded against the declared parameter of the same index. -/
theorem pushParams_none_append (fragments : Option (List ParamType)) (values : List Value)
    (params : List ParamNode) (h : (pushParams fragments values 0 params).2 = none) :
    ∃ nodes, pushParams fragments values 0 params = (params ++ nodes, none) ∧
      nodes.length = values.length ∧
      ∀ (j : Nat) (v : Value), values[j]? = some v →
        ∃ fs f c, fragments = some fs ∧ fs[j]? = some f ∧
          addValuesToComponents f v = .ok c ∧
          nodes[j]? = some (ParamNode.mk f.name f.type v c) := by
  cases values with
  | nil => exact ⟨[], by simp [pushParams], rfl, by simp⟩
  | cons v rest =>
    obtain ⟨fs, hfs, hall⟩ := pushParams_of_none fragments (v :: rest) 0 params h (by simp)
    subst hfs
    obtain ⟨nodes, hn, hlen, hget⟩ := pushParams_ok fs (v :: rest) 0 params hall
    refine ⟨nodes, hn, hlen, ?_⟩
    intro j x hx
    obtain ⟨f, c, hf, hc, hnode⟩ := hget j x hx
    exact ⟨fs, f, c, rfl, by simpa using hf, hc, hnode⟩

/-- The guard of `addOutputParamsToTrace` (line 193): nothing is decoded. -/
theorem addOutputParamsToTrace_skip (coder : AbiCoder) (u : Trace) (tx : TransactionDescription)
    (h : ¬ (truthy u.outputs = true ∧ u.outputs ≠ some "0x" ∧ truthy u.error = false)) :
    addOutputParamsToTrace coder u tx = (u, none) := by
  unfold addOutputParamsToTrace
  rw [if_pos]
  simp only [Bool.or_eq_true, Bool.not_eq_true', decide_eq_true_eq]
  by_cases h1 : truthy u.outputs = true
  · by_cases h2 : u.outputs = some "0x"
    · exact Or.inl (Or.inr h2)
    · by_cases h3 : truthy u.error = true
      · exact Or.inr h3
      · exact absurd ⟨h1, h2, by simpa using h3⟩ h
  · exact Or.inl (Or.inl (by simpa using h1))

/-- Past the guard of `addOutputParamsToTrace` the output bytes are decoded
against the declared return types and the values are pushed. -/
theorem addOutputParamsToTrace_decode (coder : AbiCoder) (u : Trace)
    (tx : TransactionDescription)
    (h : truthy u.outputs = true ∧ u.outputs ≠ some "0x" ∧ truthy u.error = false) :
    addOutputParamsToTrace coder u tx =
      match coder.decode tx.functionFragment.outputs (u.outputs.getD "") with
      | .error e => (u, some e)
      | .ok outputParams =>
        ({ u with outputParams :=
            (pushParams tx.functionFragment.outputs outputParams 0 u.outputParams).1 },
          (pushParams tx.functionFragment.outputs outputParams 0 u.outputParams).2) := by
  unfold addOutputParamsToTrace
  rw [if_neg (by simp [h.1, h.2.1, h.2.2])]

/-- C15 (amended). Output decoding condition: for every frame that is not a
creation, has call data, whose selector has candidates, that the loop reaches
(no creation frame with call data comes before it in the flattened list), whose
selected interface parses the call data into a description that declares its
return types, and whose `try` block raises nothing (so the output bytes, when
decoded, decode), with a coder that returns one value per declared type:
`funcName` is set and one input node per argument is appended; if the frame's
output bytes are present (defined and not the empty string), are not "0x" and
the frame records no execution error, the output bytes are decoded and exactly
one output node per declared return type is appended, in declaration order,
named and typed from the declaration; otherwise the output parameter list is
left unchanged. -/
theorem parseTraceParams_outputs (coder : AbiCoder) (traces : List (List Trace))
    (contracts : Contracts) (pre : List Trace) (t : Trace) (post : List Trace)
    (first : EthersContract) (others : List EthersContract) (tx : TransactionDescription)
    (outs : List ParamType)
    (hflat : traces.flatten = pre ++ t :: post)
    (hpre : ∀ u ∈ pre, ¬ (hasCallData u = true ∧ u.type = MessageType.Create))
    (hcall : hasCallData t = true) (htype : t.type ≠ MessageType.Create)
    (hcands : candidatesOf (mapFunctionSelectors2Contracts contracts) t = first :: others)
    (hparse : (parseTraceParams.select first others t).1.interface.parseTransaction
      (t.inputs.getD "") = .ok tx)
    (houts : tx.functionFragment.outputs = some outs)
    (hcoder : ∀ vals, coder.decode (some outs) (t.outputs.getD "") = .ok vals →
      vals.length = outs.length)
    (hresolved : (parseTraceParams.tryBlock coder (parseTraceParams.select first others t).1
      (parseTraceParams.select first others t).2).2 = none) :
    ∃ out inNodes,
      (parseTraceParams coder traces contracts).traces[pre.length]? = some out ∧
      out.funcName = some tx.name ∧
      out.inputParams = t.inputParams ++ inNodes ∧
      inNodes.length = tx.args.length ∧
      ((truthy t.outputs = true ∧ t.outputs ≠ some "0x" ∧ truthy t.error = false) →
        ∃ vals nodes, coder.decode (some outs) (t.outputs.getD "") = .ok vals ∧
          out.outputParams = t.outputParams ++ nodes ∧
          nodes.length = outs.length ∧
          ∀ (i : Nat) (o : ParamType), outs[i]? = some o →
            ∃ v c, vals[i]? = some v ∧ addValuesToComponents o v = .ok c ∧
              nodes[i]? = some (ParamNode.mk o.name o.type v c)) ∧
      (¬ (truthy t.outputs = true ∧ t.outputs ≠ some "0x" ∧ truthy t.error = false) →
        out.outputParams = t.outputParams) := by
  have hreach : (parseTraceParams coder traces contracts).traces[pre.length]? =
      some (parseTraceParams.body coder contracts (mapFunctionSelectors2Contracts contracts)
        t).trace := by
    unfold parseTraceParams
    rw [hflat]
    exact parseTraceParams.loop_reached coder contracts _ pre t post hpre
  rw [parseTraceParams.body_call coder contracts _ t first others hcall htype hcands] at hreach
  simp only [parseTraceParams.tryCatch_fst] at hreach
  obtain ⟨p, hsel⟩ := parseTraceParams.select_snd first others t
  rw [hsel] at hreach hresolved
  have hparse2 : (parseTraceParams.select first others t).1.interface.parseTransaction
      (({ t with proxy := p } : Trace).inputs.getD "") = .ok tx := hparse
  rw [parseTraceParams.tryBlock_of_parse coder _ _ tx hparse2] at hreach hresolved
  -- the inputs were pushed without an error
  have hin : (pushParams tx.functionFragment.inputs tx.args 0 t.inputParams).2 = none := by
    cases h : (pushParams tx.functionFragment.inputs tx.args 0 t.inputParams).2 with
    | none => rfl
    | some e =>
      have h2 : (pushParams tx.functionFragment.inputs tx.args 0
          ({ t with proxy := p } : Trace).inputParams).2 = some e := h
      rw [h2] at hresolved
      simp at hresolved
  obtain ⟨inNodes, hpush, hinlen, _⟩ := pushParams_none_append _ _ _ hin
  have hpush2 : pushParams tx.functionFragment.inputs tx.args 0
      ({ t with proxy := p } : Trace).inputParams = (t.inputParams ++ inNodes, none) := hpush
  rw [hpush2] at hreach hresolved
  simp only [] at hreach hresolved
  by_cases hcond : truthy t.outputs = true ∧ t.outputs ≠ some "0x" ∧ truthy t.error = false
  · have hdecode := addOutputParamsToTrace_decode coder
      { t with proxy := p, funcName := some tx.name, inputParams := t.inputParams ++ inNodes }
      tx hcond
    rw [hdecode, houts] at hreach hresolved
    cases hd : coder.decode (some outs) (t.outputs.getD "") with
    | error e =>
      simp only [hd] at hresolved
      simp at hresolved
    | ok vals =>
      simp only [hd] at hreach hresolved
      obtain ⟨nodes, hpo, holen, hoget⟩ := pushParams_none_append _ _ _ hresolved
      rw [hpo] at hreach
      refine ⟨_, inNodes, hreach, rfl, rfl, hinlen, ?_, fun hn => absurd hcond hn⟩
      intro _
      have hvl := hcoder vals hd
      refine ⟨vals, nodes, rfl, rfl, by rw [holen, hvl], ?_⟩
      intro i o ho
      have hi : i < vals.length := by
        rw [hvl]
        exact (List.getElem?_eq_some_iff.mp ho).1
      obtain ⟨fs, f, c, hfs, hf, hc, hnode⟩ := hoget i vals[i] (List.getElem?_eq_getElem hi)
      cases hfs
      rw [ho] at hf
      cases hf
      exact ⟨vals[i], c, List.getElem?_eq_getElem hi, hc, hnode⟩
  · have hskip := addOutputParamsToTrace_skip coder
      { t with proxy := p, funcName := some tx.name, inputParams := t.inputParams ++ inNodes }
      tx hcond
    rw [hskip] at hreach
    exact ⟨_, inNodes, hreach, rfl, rfl, hinlen, fun h => absurd h hcond, fun _ => rfl⟩

/-! ## Selector index: what the build stores -/

theorem SelectorIndex.get?_append (index extra : SelectorIndex) (s : String) :
    SelectorIndex.get? (index ++ extra) s =
      match index.get? s with
      | some candidates => some candidates
      | none => SelectorIndex.get? extra s := by
  induction index with
  | nil => simp [SelectorIndex.get?]
  | cons entry rest ih =>
    obtain ⟨k, cs⟩ := entry
    by_cases hk : k = s
    · simp [SelectorIndex.get?, hk]
    · simp only [List.cons_append, SelectorIndex.get?, hk, if_false]
      exact ih

theorem SelectorIndex.get?_map_candidates (f : List EthersContract → List EthersContract)
    (a b : String) (index : SelectorIndex) :
    SelectorIndex.get? (index.map fun entry => if entry.1 = a then (entry.1, f entry.2) else entry)
        b =
      (index.get? b).map fun cs => if b = a then f cs else cs := by
  induction index with
  | nil => simp [SelectorIndex.get?]
  | cons entry rest ih =>
    obtain ⟨k, cs⟩ := entry
    rw [List.map_cons]
    by_cases hka : k = a
    · simp only [hka, if_true]
      by_cases hab : a = b
      · subst hab; simp [SelectorIndex.get?]
      · have hba : ¬ b = a := fun h => hab h.symm
        simp only [SelectorIndex.get?, hab, if_false, hba] at ih ⊢
        rw [← hka]
        rw [← hka] at ih
        exact ih
    · simp only [hka, if_false]
      by_cases hkb : k = b
      · have hba : ¬ b = a := fun h => hka (hkb.trans h)
        simp [SelectorIndex.get?, hkb, hba]
      · simp only [SelectorIndex.get?, hkb, if_false]
        exact ih

/-- Lines 169-172 on the stored arrays: the contract is appended to the array
of its selector, which is created if missing; other selectors keep theirs. -/
theorem SelectorIndex.get?_push (index : SelectorIndex) (k s : String) (c : EthersContract) :
    (index.push k c).get? s =
      if k = s then some ((index.get? s).getD [] ++ [c]) else index.get? s := by
  unfold SelectorIndex.push
  cases hk : index.get? k with
  | none =>
    simp only []
    rw [SelectorIndex.get?_append]
    by_cases hks : k = s
    · subst hks
      simp [hk, SelectorIndex.get?]
    · simp only [hks, if_false]
      cases index.get? s with
      | none => simp [SelectorIndex.get?, hks]
      | some cs => rfl
  | some cs0 =>
    simp only []
    rw [SelectorIndex.get?_map_candidates (fun cs => cs ++ [c]) k s index]
    by_cases hks : k = s
    · subst hks
      simp [hk]
    · have hsk : ¬ s = k := fun h => hks h.symm
      simp only [hks, hsk, if_false]
      cases index.get? s <;> rfl

/-- Pushing a list of declarations: the array of a selector grows by the
contracts of its declarations, in order, and no array is empty. -/
theorem SelectorIndex.foldl_push (pairs : List (String × EthersContract))
    (index : SelectorIndex) (s : String)
    (hne : ∀ cs, index.get? s = some cs → cs ≠ []) :
    ((pairs.foldl (fun index pair => SelectorIndex.push index pair.1 pair.2) index).get? s).getD [] =
        (index.get? s).getD [] ++ ((pairs.filter fun pair => pair.1 = s).map Prod.snd) ∧
      ∀ cs, (pairs.foldl (fun index pair => SelectorIndex.push index pair.1 pair.2) index).get? s = some cs →
        cs ≠ [] := by
  induction pairs generalizing index with
  | nil => exact ⟨by simp, hne⟩
  | cons pair rest ih =>
    have hne2 : ∀ cs, (index.push pair.1 pair.2).get? s = some cs → cs ≠ [] := by
      intro cs hcs
      rw [SelectorIndex.get?_push] at hcs
      by_cases hks : pair.1 = s
      · simp only [hks, if_true, Option.some.injEq] at hcs
        rw [← hcs]
        simp
      · simp only [hks, if_false] at hcs
        exact hne cs hcs
    obtain ⟨h1, h2⟩ := ih (index.push pair.1 pair.2) hne2
    refine ⟨?_, h2⟩
    rw [List.foldl_cons, h1, SelectorIndex.get?_push]
    by_cases hks : pair.1 = s
    · simp [hks, List.filter_cons]
    · simp [hks, List.filter_cons]

/-- The build pushes the declarations of the mapping in order. -/
theorem mapFunctionSelectors2Contracts_eq_foldl (contracts : Contracts) :
    mapFunctionSelectors2Contracts contracts =
      (declarations contracts).foldl (fun index pair => SelectorIndex.push index pair.1 pair.2) [] := by
  unfold mapFunctionSelectors2Contracts declarations
  generalize ([] : SelectorIndex) = index
  induction contracts.map Prod.snd generalizing index with
  | nil => rfl
  | cons contract rest ih =>
    rw [List.foldl_cons, List.flatMap_cons, List.foldl_append, ih]
    congr 1
    unfold selectorPairs
    cases contract.ethersContract with
    | none => rfl
    | some ec =>
      simp only []
      rw [List.foldl_map]

/-- The array stored for a selector holds the contracts that declare it, and
no stored array is empty. -/
theorem mapFunctionSelectors2Contracts_getD (contracts : Contracts) (selector : String) :
    ((mapFunctionSelectors2Contracts contracts).get? selector).getD [] =
        declaredBy contracts selector ∧
      ∀ cs, (mapFunctionSelectors2Contracts contracts).get? selector = some cs → cs ≠ [] := by
  obtain ⟨h1, h2⟩ := SelectorIndex.foldl_push (declarations contracts) [] selector
    (by intro cs h; simp [SelectorIndex.get?] at h)
  rw [← mapFunctionSelectors2Contracts_eq_foldl] at h1 h2
  simp only [SelectorIndex.get?, Option.getD_none, List.nil_append] at h1
  exact ⟨h1, h2⟩

/-- A declaration is a function fragment of a contract that has an
interface. -/
theorem mem_declarations (contracts : Contracts) (pair : String × EthersContract) :
    pair ∈ declarations contracts ↔
      ∃ entry ∈ contracts, ∃ ethersContract,
        entry.2.ethersContract = some ethersContract ∧ pair.2 = ethersContract ∧
        ∃ fragment ∈ ethersContract.interface.fragments,
          fragment.type = "function" ∧
          pair.1 = ethersContract.interface.getSighash fragment := by
  unfold declarations selectorPairs
  simp only [List.mem_flatMap, List.mem_map]
  constructor
  · rintro ⟨contract, ⟨entry, hentry, rfl⟩, hp⟩
    cases hec : entry.2.ethersContract with
    | none => rw [hec] at hp; simp at hp
    | some ec =>
      rw [hec] at hp
      simp only [List.mem_map, List.mem_filter, decide_eq_true_eq] at hp
      obtain ⟨f, ⟨hf, hft⟩, rfl⟩ := hp
      exact ⟨entry, hentry, ec, hec, rfl, f, hf, hft, rfl⟩
  · rintro ⟨entry, hentry, ec, hec, hp2, f, hf, hft, hp1⟩
    refine ⟨entry.2, ⟨entry, hentry, rfl⟩, ?_⟩
    rw [hec]
    simp only [List.mem_map, List.mem_filter, decide_eq_true_eq]
    refine ⟨f, ⟨hf, hft⟩, ?_⟩
    cases pair
    simp only at hp1 hp2
    rw [hp1, hp2]

/-- Every candidate of a frame is the ethers contract of an entry of the
mapping. -/
theorem candidatesOf_mem (contracts : Contracts) (t : Trace) (ec : EthersContract)
    (h : ec ∈ candidatesOf (mapFunctionSelectors2Contracts contracts) t) :
    ∃ entry ∈ contracts, entry.2.ethersContract = some ec := by
  unfold candidatesOf at h
  rw [(mapFunctionSelectors2Contracts_getD contracts _).1] at h
  unfold declaredBy at h
  simp only [List.mem_map, List.mem_filter] at h
  obtain ⟨pair, ⟨hpair, _⟩, rfl⟩ := h
  obtain ⟨entry, hentry, ec2, hec, hp2, _⟩ := (mem_declarations contracts pair).mp hpair
  exact ⟨entry, hentry, by rw [hec, hp2]⟩

/-- C16. Selector Index build (`mapFunctionSelectors2Contracts`): for every
contract mapping and every selector, the candidate list stored for the selector
is the list of the contracts of the declarations with that selector: one entry
per pair of a contract with an interface and a declared fragment of type
"function" with that selector, in contract-map iteration order and then
declaration order (contracts without an interface and fragments that are not
functions are no declarations); a selector declared by no contract has no
entry. -/
theorem mapFunctionSelectors2Contracts_get? (contracts : Contracts) (selector : String) :
    (declaredBy contracts selector = [] →
      (mapFunctionSelectors2Contracts contracts).get? selector = none) ∧
    (declaredBy contracts selector ≠ [] →
      (mapFunctionSelectors2Contracts contracts).get? selector =
        some (declaredBy contracts selector)) ∧
    (∀ pair, pair ∈ declarations contracts ↔
      ∃ entry ∈ contracts, ∃ ethersContract,
        entry.2.ethersContract = some ethersContract ∧ pair.2 = ethersContract ∧
        ∃ fragment ∈ ethersContract.interface.fragments,
          fragment.type = "function" ∧
          pair.1 = ethersContract.interface.getSighash fragment) := by
  obtain ⟨h1, h2⟩ := mapFunctionSelectors2Contracts_getD contracts selector
  refine ⟨?_, ?_, mem_declarations contracts⟩
  · intro hnil
    rw [hnil] at h1
    cases hg : (mapFunctionSelectors2Contracts contracts).get? selector with
    | none => rfl
    | some cs =>
      rw [hg] at h1
      exact absurd h1 (h2 cs hg)
  · intro hne
    cases hg : (mapFunctionSelectors2Contracts contracts).get? selector with
    | none =>
      rw [hg] at h1
      exact absurd h1.symm hne
    | some cs =>
      rw [hg] at h1
      simp only [Option.getD_some] at h1
      rw [h1]

/-! ## Depth annotation: when the pass raises -/

theorem Contracts.get?_setMinDepth_eq_none (contracts : Contracts) (a b : String) (d : Int) :
    (contracts.setMinDepth a d).get? b = none ↔ contracts.get? b = none := by
  have h := Contracts.minDepthOf_setMinDepth contracts a b d
  simp only [Contracts.minDepthOf] at h
  constructor
  · intro hn
    rw [hn] at h
    cases hg : contracts.get? b with
    | none => rfl
    | some c => rw [hg] at h; split at h <;> simp at h
  · intro hn
    rw [hn] at h
    cases hg : (contracts.setMinDepth a d).get? b with
    | none => rfl
    | some c => rw [hg] at h; split at h <;> simp at h

/-- The loop of `parseTraceDepths` raises exactly when the `to` address of
some frame is not a key of the mapping. -/
theorem parseTraceDepths.loop_error_iff (ts : List Trace) (contracts : Contracts) :
    (∃ e, parseTraceDepths.loop ts contracts = .error e) ↔
      ∃ t ∈ ts, contracts.get? t.to_ = none := by
  induction ts generalizing contracts with
  | nil => simp [parseTraceDepths.loop]
  | cons t rest ih =>
    cases hc : contracts.get? t.to_ with
    | none =>
      constructor
      · intro _
        exact ⟨t, List.mem_cons_self _ _, hc⟩
      · intro _
        exact ⟨"TypeError: Cannot read properties of undefined (reading 'minDepth')",
          by simp [parseTraceDepths.loop, hc]⟩
    | some c =>
      have key : ∃ next : Contracts,
          parseTraceDepths.loop (t :: rest) contracts = parseTraceDepths.loop rest next ∧
          ∀ b, next.get? b = none ↔ contracts.get? b = none := by
        cases hm : c.minDepth with
        | none =>
          exact ⟨contracts.setMinDepth t.to_ t.depth, by simp [parseTraceDepths.loop, hc, hm],
            fun b => Contracts.get?_setMinDepth_eq_none _ _ _ _⟩
        | some m =>
          by_cases hlt : t.depth < m
          · exact ⟨contracts.setMinDepth t.to_ t.depth,
              by simp [parseTraceDepths.loop, hc, hm, hlt],
              fun b => Contracts.get?_setMinDepth_eq_none _ _ _ _⟩
          · exact ⟨contracts, by simp [parseTraceDepths.loop, hc, hm, hlt], fun b => Iff.rfl⟩
      obtain ⟨next, hloop, hnext⟩ := key
      rw [hloop, ih next]
      constructor
      · rintro ⟨u, hu, hn⟩
        exact ⟨u, List.mem_cons_of_mem _ hu, (hnext _).mp hn⟩
      · rintro ⟨u, hu, hn⟩
        rcases List.mem_cons.mp hu with rfl | hu
        · rw [hc] at hn; cases hn
        · exact ⟨u, hu, (hnext _).mpr hn⟩

/-- C17. Hard failure only on caller misuse in the Depth Annotator:
`parseTraceDepths` raises if and only if the flattened trace list is empty, the
first frame's `from` address is absent from the contract mapping, or some
frame's `to` address is absent from the contract mapping; for a non-empty list
whose first `from` address and whose `to` addresses are all present it
completes without raising. -/
theorem parseTraceDepths_raises_iff (traces : List (List Trace)) (contracts : Contracts) :
    ((∃ e, parseTraceDepths traces contracts = .error e) ↔
      (traces.flatten = [] ∨
        (∃ first, traces.flatten.head? = some first ∧ contracts.get? first.from_ = none) ∨
        ∃ t ∈ traces.flatten, contracts.get? t.to_ = none)) ∧
    (traces.flatten ≠ [] →
      (∀ first, traces.flatten.head? = some first → contracts.get? first.from_ ≠ none) →
      (∀ t ∈ traces.flatten, contracts.get? t.to_ ≠ none) →
      ∃ result, parseTraceDepths traces contracts = .ok result) := by
  have hiff : (∃ e, parseTraceDepths traces contracts = .error e) ↔
      (traces.flatten = [] ∨
        (∃ first, traces.flatten.head? = some first ∧ contracts.get? first.from_ = none) ∨
        ∃ t ∈ traces.flatten, contracts.get? t.to_ = none) := by
    unfold parseTraceDepths
    cases hflat : traces.flatten with
    | nil => simp
    | cons first rest =>
      cases hfrom : contracts.get? first.from_ with
      | none => simp [hfrom]
      | some c0 =>
        simp only [List.head?_cons, Option.some.injEq, exists_eq_left', hfrom]
        rw [parseTraceDepths.loop_error_iff]
        simp only [Contracts.get?_setMinDepth_eq_none]
        simp
  refine ⟨hiff, ?_⟩
  intro hne hfrom hto
  cases hres : parseTraceDepths traces contracts with
  | ok result => exact ⟨result, rfl⟩
  | error e =>
    rcases hiff.mp ⟨e, hres⟩ with h | ⟨first, hf, hn⟩ | ⟨t, ht, hn⟩
    · exact absurd h hne
    · exact absurd hn (hfrom first hf)
    · exact absurd hn (hto t ht)

/-! ## Fixed-length arrays, creation frames and contracts without interface -/

/-- C13 (code at the failing input). The descriptor `uint256[2][] matrix` and
the value `[[1, 2], [3, 4]]` are accepted, and both nodes of the result have
the array type `uint256[2]` but no components: the child type does not end in
`[]`, so the elements are decoded with base category `uint256[2]` instead of
"array". -/
theorem addValuesToComponents_array_node_without_components :
    ∃ nodes, addValuesToComponents Example.matrix Example.matrixValue = .ok (some nodes) ∧
      nodes.map (fun node => (node.name, node.type)) =
        [("0", "uint256[2]"), ("1", "uint256[2]")] ∧
      ∀ node ∈ nodes, node.components.isNone = true :=
  ⟨[ParamNode.mk "0" "uint256[2]" (.seq [.num 1, .num 2]) none,
    ParamNode.mk "1" "uint256[2]" (.seq [.num 3, .num 4]) none], rfl, rfl, by
      intro node hnode
      simp only [List.mem_cons, List.mem_singleton, List.not_mem_nil, or_false] at hnode
      rcases hnode with rfl | rfl <;> rfl⟩

/-- C18 (code at the failing input). The constructor arguments of the second
vault do not decode; the error leaves `parseTraceParams`, and the call of
`totalSupply()` after the creation frame is not processed. -/
theorem parseTraceParams_create_raises :
    (parseTraceParams Example.coder [[Example.createVault2, Example.call]]
        Example.contractsWithSuffix).raised = some "data out-of-bounds" ∧
    ((parseTraceParams Example.coder [[Example.createVault2, Example.call]]
        Example.contractsWithSuffix).traces.map fun t => t.funcName) =
      [some "constructor", none] ∧
    ((parseTraceParams Example.coder [[Example.call]]
        Example.contractsWithSuffix).traces.map fun t => t.funcName) =
      [some "totalSupply"] := by
  decide

/-- C20 (code at the failing input). For the fixed-length array
`uint256[3] triple` the child type is the type string without its last two
characters, `uint256[`, not the element type `uint256`; for `uint256[2][]
matrix` the child type `uint256[2]` is an array type but the child descriptor
has base category `uint256[2]`, not "array", and the elements get no
components. -/
theorem addValuesToComponents_fixed_length :
    Example.triple.baseType = "array" ∧
    Example.triple.child.type = "uint256[" ∧
    Example.triple.child.baseType = "uint256[" ∧
    addValuesToComponents Example.triple (.seq [.num 1, .num 2, .num 3]) =
      .ok (some [ParamNode.mk "0" "uint256[" (.num 1) none,
                 ParamNode.mk "1" "uint256[" (.num 2) none,
                 ParamNode.mk "2" "uint256[" (.num 3) none]) ∧
    Example.matrix.baseType = "array" ∧
    Example.matrix.child.type = "uint256[2]" ∧
    Example.matrix.child.baseType = "uint256[2]" ∧
    addValuesToComponents Example.matrix Example.matrixValue =
      .ok (some [ParamNode.mk "0" "uint256[2]" (.seq [.num 1, .num 2]) none,
                 ParamNode.mk "1" "uint256[2]" (.seq [.num 3, .num 4]) none]) := by
  refine ⟨rfl, by decide, by decide, rfl, rfl, by decide, by decide, rfl⟩

/-- Example of `parseTraceParams_inputs`: the call `transfer(0x1111, 1000)` of
the specification. -/
theorem parseTraceParams_inputs_witness :
    ∃ out, (parseTraceParams Example.boolCoder [[Example.transferCall]]
        Example.erc20Contracts).traces[0]? = some out ∧
      out.funcName = some "transfer" ∧
      out.inputParams = [ParamNode.mk "to" "address" (.str "0x1111") none,
                         ParamNode.mk "amount" "uint256" (.num 1000) none] := by
  obtain ⟨out, nodes, hout, hname, hparams, hlen, hget⟩ :=
    parseTraceParams_inputs Example.boolCoder [[Example.transferCall]] Example.erc20Contracts
      [] Example.transferCall [] Example.erc20 [] Example.transferDescription
      [Example.toParam, Example.amountParam] rfl (by simp) (by decide) (by decide) rfl rfl rfl
      rfl (by
        intro i input arg hi ha
        match i with
        | 0 => cases hi; cases ha; exact ⟨_, rfl⟩
        | 1 => cases hi; cases ha; exact ⟨_, rfl⟩
        | i + 2 => simp at hi)
  refine ⟨out, hout, hname, ?_⟩
  obtain ⟨c0, hc0, hn0⟩ := hget 0 Example.toParam (.str "0x1111") rfl rfl
  obtain ⟨c1, hc1, hn1⟩ := hget 1 Example.amountParam (.num 1000) rfl rfl
  cases hc0
  cases hc1
  rw [hparams]
  match nodes, hlen, hn0, hn1 with
  | [a, b], _, hn0, hn1 =>
    simp only [List.getElem?_cons_zero, List.getElem?_cons_succ, Option.some.injEq] at hn0 hn1
    rw [hn0, hn1]
    rfl

/-- Witness of C15: the call `transfer(0x1111, 1000)` with output `0x01`. -/
theorem parseTraceParams_outputs_witness :
    ∃ out, (parseTraceParams Example.boolCoder [[Example.transferCall]]
        Example.erc20Contracts).traces[0]? = some out ∧
      out.funcName = some "transfer" ∧
      out.outputParams = [ParamNode.mk "" "bool" (.num 1) none] := by
  obtain ⟨out, inNodes, hout, hname, _, _, hadd, _⟩ :=
    parseTraceParams_outputs Example.boolCoder [[Example.transferCall]] Example.erc20Contracts
      [] Example.transferCall [] Example.erc20 [] Example.transferDescription
      [Example.boolResult] rfl (by simp) (by decide) (by decide) rfl rfl rfl
      (by
        intro vals h
        cases h
        rfl)
      rfl
  refine ⟨out, hout, hname, ?_⟩
  obtain ⟨vals, nodes, hvals, hparams, hlen, hget⟩ := hadd ⟨by decide, by decide, by decide⟩
  cases hvals
  obtain ⟨v, c, hv, hc, hn⟩ := hget 0 Example.boolResult rfl
  cases hv
  cases hc
  rw [hparams]
  match nodes, hlen, hn with
  | [a], _, hn =>
    simp only [List.getElem?_cons_zero, Option.some.injEq] at hn
    rw [hn]
    rfl

theorem Contracts.get?_of_mem (contracts : Contracts) (k : String) (c : Contract)
    (hkeys : (contracts.map Prod.fst).Nodup) (hmem : (k, c) ∈ contracts) :
    contracts.get? k = some c := by
  induction contracts with
  | nil => simp at hmem
  | cons entry rest ih =>
    obtain ⟨k2, c2⟩ := entry
    simp only [List.map_cons, List.nodup_cons] at hkeys
    rcases List.mem_cons.mp hmem with h | h
    · cases h
      simp [Contracts.get?]
    · have hne : ¬ k2 = k := by
        intro e
        apply hkeys.1
        rw [e]
        exact List.mem_map.mpr ⟨(k, c), h, rfl⟩
      simp only [Contracts.get?, hne, if_false]
      exact ih hkeys.2 h

/-- No candidate has the address of a contract without interface, when the
keys of the mapping are distinct and every ethers contract carries the address
it is stored under. -/
theorem candidatesOf_address_ne (contracts : Contracts) (t : Trace) (contract : Contract)
    (hkeys : (contracts.map Prod.fst).Nodup)
    (hto : contracts.get? t.to_ = some contract) (hno : contract.ethersContract = none)
    (haddr : ∀ entry ∈ contracts, ∀ ec, entry.2.ethersContract = some ec →
      ec.address = entry.1) :
    ∀ c ∈ candidatesOf (mapFunctionSelectors2Contracts contracts) t, c.address ≠ t.to_ := by
  intro c hc heq
  obtain ⟨entry, hentry, hec⟩ := candidatesOf_mem contracts t c hc
  have hkey : entry.1 = t.to_ := by rw [← haddr entry hentry c hec, heq]
  have hget := Contracts.get?_of_mem contracts entry.1 entry.2 hkeys hentry
  rw [hkey, hto] at hget
  cases hget
  rw [hno] at hec
  cases hec

/-- C19 (amended). Contracts without an interface are never decoded with an
interface of their own: for every frame that is not a creation, that the loop
reaches and whose `to` address is a contract with no interface (the keys of the
mapping being distinct and every ethers contract carrying the address it is
stored under), if the frame has no call data or its selector has no candidate
in the Selector Index it is left as it was (no function name, parameter lists
unchanged); if its selector has candidates, the frame is decoded with the
first candidate and its proxy flag is set to true. -/
theorem parseTraceParams_no_interface (coder : AbiCoder) (traces : List (List Trace))
    (contracts : Contracts) (pre : List Trace) (t : Trace) (post : List Trace)
    (contract : Contract)
    (hflat : traces.flatten = pre ++ t :: post)
    (hpre : ∀ u ∈ pre, ¬ (hasCallData u = true ∧ u.type = MessageType.Create))
    (htype : t.type ≠ MessageType.Create)
    (hkeys : (contracts.map Prod.fst).Nodup)
    (hto : contracts.get? t.to_ = some contract) (hno : contract.ethersContract = none)
    (haddr : ∀ entry ∈ contracts, ∀ ec, entry.2.ethersContract = some ec →
      ec.address = entry.1) :
    ((hasCallData t = false ∨
        candidatesOf (mapFunctionSelectors2Contracts contracts) t = []) →
      (parseTraceParams coder traces contracts).traces[pre.length]? = some t) ∧
    (∀ first others, hasCallData t = true →
      candidatesOf (mapFunctionSelectors2Contracts contracts) t = first :: others →
      (parseTraceParams coder traces contracts).traces[pre.length]? =
        some (parseTraceParams.tryCatch coder first { t with proxy := some true }).1 ∧
      (parseTraceParams.tryCatch coder first { t with proxy := some true }).1.proxy =
        some true) := by
  have hreach : (parseTraceParams coder traces contracts).traces[pre.length]? =
      some (parseTraceParams.body coder contracts (mapFunctionSelectors2Contracts contracts)
        t).trace := by
    unfold parseTraceParams
    rw [hflat]
    exact parseTraceParams.loop_reached coder contracts _ pre t post hpre
  constructor
  · rintro (hskip | hnone)
    · rw [hreach, parseTraceParams.body_skip coder contracts _ t hskip]
    · rw [hreach, parseTraceParams.body_no_candidate coder contracts _ t htype hnone]
  · intro first others hcall hcands
    rw [parseTraceParams.body_call coder contracts _ t first others hcall htype hcands] at hreach
    have hne := candidatesOf_address_ne contracts t contract hkeys hto hno haddr
    rw [hcands] at hne
    have hfind : (first :: others).find? (fun c => c.address = t.to_) = none := by
      rw [List.find?_eq_none]
      intro c hc
      simpa using hne c hc
    have hsel : parseTraceParams.select first others t =
        (first, { t with proxy := some true }) := by
      simp only [parseTraceParams.select, hfind]
    rw [hsel] at hreach
    exact ⟨hreach, by rw [parseTraceParams.tryCatch_proxy]⟩

/-- Witness of C19: a call on a contract without interface whose selector no
contract declares, and no creation frame before it. -/
theorem parseTraceParams_no_interface_witness :
    (parseTraceParams Example.coder [[Example.call, Example.unknownCall]]
      Example.contracts).traces[1]? = some Example.unknownCall :=
  (parseTraceParams_no_interface Example.coder [[Example.call, Example.unknownCall]]
    Example.contracts [Example.call] Example.unknownCall []
    ⟨"0xa", none, none, none, []⟩ rfl (by decide) (by decide) (by decide) rfl rfl (by
      intro entry hentry ec hec
      simp only [Example.contracts, List.mem_cons, List.mem_singleton, List.not_mem_nil,
        or_false] at hentry
      rcases hentry with rfl | rfl | rfl | rfl | rfl <;> cases hec <;> rfl)).1
    (Or.inr rfl)

/-- Counterexample to C19 as stated: the contract at `0xa` has no interface,
yet a call on it with the selector of `totalSupply()`, which the token
declares, ends with the function name `totalSupply` and the proxy flag set. -/
theorem parseTraceParams_no_interface_counterexample :
    (Example.contracts.get? Example.proxyCall.to_).map (fun c => c.ethersContract.isSome) =
      some false ∧
    Example.proxyCall.funcName = none ∧
    ((parseTraceParams Example.coder [[Example.proxyCall]]
        Example.contracts).traces.map fun t => (t.funcName, t.proxy)) =
      [(some "totalSupply", some true)] := by
  decide

/-! ## The proxy flag after a failed decode -/

/-- When the interface does not parse the call data, the `try`/`catch`
statement leaves the frame as it was. -/
theorem parseTraceParams.tryCatch_of_parse_error (coder : AbiCoder) (c : EthersContract)
    (u : Trace) (err : String)
    (h : c.interface.parseTransaction (u.inputs.getD "") = .error err) :
    (parseTraceParams.tryCatch coder c u).1 = u := by
  rw [parseTraceParams.tryCatch_fst]
  unfold parseTraceParams.tryBlock
  rw [h]

/-- The proxy flag is not rolled back on a failed decode, for a frame that the
loop reaches: for a frame that is not a creation, has call data and whose
selector has candidates none of which has the frame's `to` address, the frame
ends with proxy flag true whether or not parsing with the first candidate
succeeds; when the parse of the first candidate raises, the frame is otherwise
as it was, and a "no matching function" error writes no warning. -/
theorem parseTraceParams_proxy_kept (coder : AbiCoder) (traces : List (List Trace))
    (contracts : Contracts) (pre : List Trace) (t : Trace) (post : List Trace)
    (first : EthersContract) (others : List EthersContract)
    (hflat : traces.flatten = pre ++ t :: post)
    (hpre : ∀ u ∈ pre, ¬ (hasCallData u = true ∧ u.type = MessageType.Create))
    (hcall : hasCallData t = true) (htype : t.type ≠ MessageType.Create)
    (hcands : candidatesOf (mapFunctionSelectors2Contracts contracts) t = first :: others)
    (hnone : ∀ c ∈ first :: others, c.address ≠ t.to_) :
    (∃ out, (parseTraceParams coder traces contracts).traces[pre.length]? = some out ∧
      out.proxy = some true) ∧
    (∀ err, first.interface.parseTransaction (t.inputs.getD "") = .error err →
      (parseTraceParams coder traces contracts).traces[pre.length]? =
        some { t with proxy := some true } ∧
      ("no matching function".data <:+: err.data →
        (parseTraceParams.body coder contracts (mapFunctionSelectors2Contracts contracts)
          t).warnings = [])) := by
  have hreach : (parseTraceParams coder traces contracts).traces[pre.length]? =
      some (parseTraceParams.body coder contracts (mapFunctionSelectors2Contracts contracts)
        t).trace := by
    unfold parseTraceParams
    rw [hflat]
    exact parseTraceParams.loop_reached coder contracts _ pre t post hpre
  have hbody := parseTraceParams.body_call coder contracts _ t first others hcall htype hcands
  have hfind : (first :: others).find? (fun c => c.address = t.to_) = none := by
    rw [List.find?_eq_none]
    intro c hc
    simpa using hnone c hc
  have hsel : parseTraceParams.select first others t =
      (first, { t with proxy := some true }) := by
    simp only [parseTraceParams.select, hfind]
  rw [hsel] at hbody
  rw [hbody] at hreach
  refine ⟨⟨_, hreach, by rw [parseTraceParams.tryCatch_proxy]⟩, ?_⟩
  intro err herr
  have herr2 : first.interface.parseTransaction
      (({ t with proxy := some true } : Trace).inputs.getD "") = .error err := herr
  refine ⟨?_, ?_⟩
  · rw [hreach, parseTraceParams.tryCatch_of_parse_error coder first _ err herr2]
  · intro hin
    rw [hbody]
    simp only [parseTraceParams.tryCatch, parseTraceParams.tryBlock, herr2, jsMatch]
    simp [hin]

/-- Example of `parseTraceParams_proxy_kept`: a call on the contract at `0xa`,
which has no interface, with a selector that only the contract at `0xother`
declares and whose interface raises "no matching function" on the call data. -/
theorem parseTraceParams_proxy_kept_witness :
    (parseTraceParams Example.coder [[Example.emptyCall, Example.proxyCall]]
        Example.collisionContracts).traces[1]? =
      some { Example.proxyCall with proxy := some true } ∧
    ("no matching function".data <:+: "no matching function".data →
      (parseTraceParams.body Example.coder Example.collisionContracts
        (mapFunctionSelectors2Contracts Example.collisionContracts)
        Example.proxyCall).warnings = []) :=
  (parseTraceParams_proxy_kept Example.coder [[Example.emptyCall, Example.proxyCall]]
    Example.collisionContracts [Example.emptyCall] Example.proxyCall []
    ⟨"0xother", Example.collidingInterface⟩ [] rfl (by decide) (by decide) (by decide) rfl
    (by
      intro c hc
      simp only [List.mem_singleton] at hc
      subst hc
      decide)).2 "no matching function" rfl

/-! ## Frames after a creation frame, and arguments with fixed-length arrays -/

/-- C4 (code at the failing input). The call of the selector of
`totalSupply()` on `0xa` is not a creation, has call data and its selector has
one candidate, the token, whose address is not `0xa`; the call of
`totalSupply()` on the token has the token as candidate. After a creation
frame with call data neither of them is resolved and the proxy flag of the
first stays unset, because the creation branch ends with `return`; processed
alone the first is resolved through the token with proxy flag true and the
second through its own interface. -/
theorem parseTraceParams_select_after_create :
    Example.proxyCall.type ≠ MessageType.Create ∧
    hasCallData Example.proxyCall = true ∧
    Example.proxyCall.to_ = "0xa" ∧
    ((candidatesOf (mapFunctionSelectors2Contracts Example.contracts) Example.proxyCall).map
      fun c => c.address) = ["0xtoken"] ∧
    ((parseTraceParams Example.coder [[Example.create, Example.proxyCall, Example.call]]
        Example.contracts).traces.map fun t => (t.funcName, t.proxy)) =
      [(some "constructor", none), (none, none), (none, none)] ∧
    ((parseTraceParams Example.coder [[Example.proxyCall]]
        Example.contracts).traces.map fun t => (t.funcName, t.proxy)) =
      [(some "totalSupply", some true)] ∧
    ((parseTraceParams Example.coder [[Example.call]]
        Example.contracts).traces.map fun t => (t.funcName, t.proxy)) =
      [(some "totalSupply", none)] := by
  decide

/-- C9 (code at the failing input). The creation of the vault is a creation
frame with call data, the vault's constructor is declared and its
`constructorInputs` is absent. After another creation frame with call data the
frame is not processed (the creation branch ends with `return`):
`parsedConstructorParams` stays unset and `funcName` undefined; processed alone
the flag is set to true. -/
theorem addConstructorParamsToTrace_after_create :
    Example.createVault.type = MessageType.Create ∧
    hasCallData Example.createVault = true ∧
    ((constructorOf Example.contracts Example.createVault.to_).bind
      fun constructor => constructor.inputs).isSome = true ∧
    ((Example.contracts.get? Example.createVault.to_).bind fun c => c.constructorInputs) =
      none ∧
    ((parseTraceParams Example.coder [[Example.create, Example.createVault]]
        Example.contracts).traces.map fun t => (t.funcName, t.parsedConstructorParams)) =
      [(some "constructor", none), (none, none)] ∧
    ((parseTraceParams Example.coder [[Example.createVault]]
        Example.contracts).traces.map fun t => (t.funcName, t.parsedConstructorParams)) =
      [(some "constructor", some true)] := by
  decide

/-- C14 (code at the failing inputs). After a creation frame with call data
the call `transfer(0x1111, 1000)` gets no function name and no input node,
while processed alone it gets `transfer` and two input nodes. And the call
`batch([[(7, [8, 9])]])`, whose argument has the type
`tuple(uint256 x, uint256[] y)[1][]`, gets the function name but none of its
one input node: the elements of the outer array have the child type `tuple[1]`,
which does not end in `[]`, so each is decoded as a tuple, its field 1 is
`undefined`, and decoding `uint256[] y` on `undefined` raises; the error is
caught and a warning is written. -/
theorem parseTraceParams_inputs_not_appended :
    ((parseTraceParams Example.boolCoder [[Example.create, Example.transferCall]]
        Example.erc20Contracts).traces.map fun t => (t.funcName, t.inputParams.length)) =
      [(some "constructor", 0), (none, 0)] ∧
    ((parseTraceParams Example.boolCoder [[Example.transferCall]]
        Example.erc20Contracts).traces.map fun t => (t.funcName, t.inputParams.length)) =
      [(some "transfer", 2)] ∧
    addValuesToComponents Example.batchParam Example.batchValue =
      .error "TypeError: Cannot read properties of undefined" ∧
    ((parseTraceParams Example.coder [[Example.batchCall]]
        Example.batchContracts).traces.map fun t => (t.funcName, t.inputParams.length)) =
      [(some "batch", 0)] ∧
    (parseTraceParams Example.coder [[Example.batchCall]]
        Example.batchContracts).warnings.length = 1 :=
  ⟨by decide, by decide, rfl, by decide, by decide⟩

/-- Counterexample to C15 as stated: the call `transfer(0x1111, 1000)` is
resolved (its function name and both input nodes are set), its output bytes
`0x01` are present and not "0x", it records no error and `transfer` declares
one return type; but the coder raises on the output bytes, the error is caught,
and no output node is added. -/
theorem parseTraceParams_outputs_counterexample :
    Example.transferCall.outputs = some "0x01" ∧
    Example.transferCall.error = none ∧
    (Example.transfer.outputs.map fun outs => outs.length) = some 1 ∧
    ((parseTraceParams Example.coder [[Example.transferCall]]
        Example.erc20Contracts).traces.map fun t =>
          (t.funcName, t.inputParams.length, t.outputParams.length)) =
      [(some "transfer", 2, 0)] ∧
    (parseTraceParams Example.coder [[Example.transferCall]]
        Example.erc20Contracts).raised = none := by
  decide

/-- C21 (code at the failing input). The call on `0xa` is not a creation, has
call data, and the only candidate of its selector is the contract at
`0xother`, whose interface raises "no matching function". After a creation
frame with call data the frame is not processed (the creation branch ends with
`return`) and its proxy flag stays unset; processed alone it ends with proxy
flag true and no function name. -/
theorem parseTraceParams_proxy_after_create :
    Example.proxyCall.type ≠ MessageType.Create ∧
    hasCallData Example.proxyCall = true ∧
    Example.proxyCall.to_ = "0xa" ∧
    ((candidatesOf (mapFunctionSelectors2Contracts Example.collisionContracts)
      Example.proxyCall).map fun c => c.address) = ["0xother"] ∧
    ((parseTraceParams Example.coder [[Example.create, Example.proxyCall]]
        Example.collisionContracts).traces.map fun t => (t.funcName, t.proxy)) =
      [(some "constructor", none), (none, none)] ∧
    ((parseTraceParams Example.coder [[Example.proxyCall]]
        Example.collisionContracts).traces.map fun t => (t.funcName, t.proxy)) =
      [(none, some true)] := by
  decide

end Tx2uml
